import Mathlib

/-!
Touch-draggable wireframe cube (`src/src/example1_main.cpp`)

A shallow embedding of the sketch's global state and of its functions
`cube`, `setup`, `SetVars`, `ProcessLine`, `RenderImage` and `loop`.

Conventions of the embedding:

* C `int` is `Int`; the sketch's arithmetic stays far inside the 32 bit range
  on every path considered here, so no wrap-around is modelled.
* `float`/`double` values live in an ordered field `K` with a floor function
  (`ℚ` when a value has to be computed, `ℝ` for the trigonometric facts) and
  floating-point operations are taken as the exact field operations.  The
  conversion of a floating value to `int` is truncation toward zero (`cTrunc`).
* `sin` and `cos` come from the C library; they are parameters `sinF cosF`.
* The arrays `Lines`, `Render`, `ORender` are lists of 20 entries, read with
  `List.getD` and written with `List.set`.
* The display is an output log: every `tft.drawLine` call appends a `DrawCall`.
  `delay(14)` has no effect on the state.
* The display and touch initialisation of `setup` and the unused globals `h`,
  `w` carry no state the functions below read and are left out.
-/

namespace CubeDemo

/-! ## Data model -/

/-- A model-space vertex, `struct Point3d`. -/
structure Point3d where
  x : Int
  y : Int
  z : Int
deriving DecidableEq

/-- A screen-space point, `struct Point2d`. -/
structure Point2d where
  x : Int
  y : Int
deriving DecidableEq

/-- A wireframe edge, `struct Line3d`. -/
structure Line3d where
  p0 : Point3d
  p1 : Point3d
deriving DecidableEq

/-- A projected edge, `struct Line2d`. -/
structure Line2d where
  p0 : Point2d
  p1 : Point2d
deriving DecidableEq

/-- The zero-initialised `Line3d` of a global array. -/
def Line3d.zero : Line3d := ⟨⟨0, 0, 0⟩, ⟨0, 0, 0⟩⟩

/-- The zero-initialised `Line2d` of a global array. -/
def Line2d.zero : Line2d := ⟨⟨0, 0⟩, ⟨0, 0⟩⟩

/-- A raw touch sample, the `x` and `y` of `TS_Point`. -/
structure TS_Point where
  x : Int
  y : Int
deriving DecidableEq

/-- The palette symbols handed to `tft.drawLine`. -/
inductive Color where
  | TFT_BLACK
  | TFT_RED
  | TFT_GREEN
  | TFT_BLUE
deriving DecidableEq

/-- One call `tft.drawLine(x0, y0, x1, y1, color)`. -/
structure DrawCall where
  x0 : Int
  y0 : Int
  x1 : Int
  y1 : Int
  color : Color
deriving DecidableEq

/-- The sketch's global variables (lines 31-74). -/
structure State (K : Type) where
  inc : Int
  xx : K
  xy : K
  xz : K
  yx : K
  yy : K
  yz : K
  zx : K
  zy : K
  zz : K
  fact : K
  Xan : Int
  Yan : Int
  Xoff : Int
  Yoff : Int
  Zoff : Int
  touchActive : Bool
  lastTouchX : Int
  lastTouchY : Int
  LinestoRender : Int
  OldLinestoRender : Int
  Lines : List Line3d
  Render : List Line2d
  ORender : List Line2d

section Model

variable {K : Type} [LinearOrderedField K] [FloorRing K]

/-- Conversion of a floating value to `int`: truncation toward zero. -/
def cTrunc (q : K) : Int :=
  if 0 ≤ q then ⌊q⌋ else ⌈q⌉

/-- The globals as initialised at program start: `inc = -2`, everything else
zero, the three arrays holding 20 zero entries. -/
def boot : State K :=
  { inc := -2
    xx := 0, xy := 0, xz := 0
    yx := 0, yy := 0, yz := 0
    zx := 0, zy := 0, zz := 0
    fact := 0
    Xan := 0, Yan := 0
    Xoff := 0, Yoff := 0, Zoff := 0
    touchActive := false
    lastTouchX := 0, lastTouchY := 0
    LinestoRender := 0, OldLinestoRender := 0
    Lines := List.replicate 20 Line3d.zero
    Render := List.replicate 20 Line2d.zero
    ORender := List.replicate 20 Line2d.zero }

/-- The pair of assignments `Lines[i].p0 = a; Lines[i].p1 = b;`. -/
def setLine (L : List Line3d) (i : Nat) (a b : Point3d) : List Line3d :=
  L.set i ⟨a, b⟩

/-- The function `cube()` (lines 244-288). -/
def cube (s : State K) : State K :=
  -- Front Face
  let L := setLine s.Lines 0 ⟨-50, -50, 50⟩ ⟨50, -50, 50⟩
  let L := setLine L 1 ⟨50, -50, 50⟩ ⟨50, 50, 50⟩
  let L := setLine L 2 ⟨50, 50, 50⟩ ⟨-50, 50, 50⟩
  let L := setLine L 3 ⟨-50, 50, 50⟩ ⟨-50, -50, 50⟩
  -- Back Face
  let L := setLine L 4 ⟨-50, -50, -50⟩ ⟨50, -50, -50⟩
  let L := setLine L 5 ⟨50, -50, -50⟩ ⟨50, 50, -50⟩
  let L := setLine L 6 ⟨50, 50, -50⟩ ⟨-50, 50, -50⟩
  let L := setLine L 7 ⟨-50, 50, -50⟩ ⟨-50, -50, -50⟩
  -- Connecting edges between front and back faces
  let L := setLine L 8 ⟨-50, -50, 50⟩ ⟨-50, -50, -50⟩
  let L := setLine L 9 ⟨50, -50, 50⟩ ⟨50, -50, -50⟩
  let L := setLine L 10 ⟨-50, 50, 50⟩ ⟨-50, 50, -50⟩
  let L := setLine L 11 ⟨50, 50, 50⟩ ⟨50, 50, -50⟩
  { s with Lines := L, LinestoRender := 12, OldLinestoRender := 12 }

/-- The state part of `setup()` (lines 94-101): build the cube, set the
degree conversion factor and the projection offsets. -/
def setup (s : State K) : State K :=
  let s := cube s
  { s with fact := 180 / 3.14159259, Xoff := 240, Yoff := 160, Zoff := 550 }

/-- The state in which the first call of `loop` starts. -/
def setupState : State K := setup boot

/-- Lines 106-135 of `loop`: the orientation update from the touch poll.
`none` is `ts.touched() == false`. -/
def loopTouch (touch : Option TS_Point) (s : State K) : State K :=
  match touch with
  | some p =>
    let touchX := p.x
    let touchY := p.y
    if s.touchActive = false then
      { s with lastTouchX := touchX, lastTouchY := touchY, touchActive := true }
    else
      let dx := touchX - s.lastTouchX
      let dy := touchY - s.lastTouchY
      { s with
        Xan := cTrunc ((s.Xan : K) + (dx : K) * 0.5)
        Yan := cTrunc ((s.Yan : K) + (dy : K) * 0.5)
        lastTouchX := touchX
        lastTouchY := touchY }
  | none =>
    { s with
      touchActive := false
      Xan := Int.tmod (s.Xan + 1) 360
      Yan := Int.tmod (s.Yan + 1) 360 }

/-- The function `SetVars()` (lines 179-202). -/
def SetVars (sinF cosF : K → K) (s : State K) : State K :=
  let Xan2 : K := (s.Xan : K) / s.fact
  let Yan2 : K := (s.Yan : K) / s.fact
  let s1 := sinF Yan2
  let s2 := sinF Xan2
  let c1 := cosF Yan2
  let c2 := cosF Xan2
  { s with
    xx := c1, xy := 0, xz := -s1
    yx := s1 * s2, yy := c2, yz := c1 * s2
    zx := s1 * c2, zy := -s2, zz := c1 * c2 }

/-- Lines 139-145 of `loop`: the zoom oscillation. -/
def loopZoom (s : State K) : State K :=
  let s := { s with Zoff := s.Zoff + s.inc }
  if s.Zoff > 500 then { s with inc := -1 }
  else if s.Zoff < 160 then { s with inc := 1 }
  else s

/-- The function `ProcessLine(ret, vec)` (lines 204-242); the result is the
value of `*ret` on return. -/
def ProcessLine (s : State K) (ret : Line2d) (vec : Line3d) : Line2d :=
  let x1 := vec.p0.x
  let y1 := vec.p0.y
  let z1 := vec.p0.z
  let x2 := vec.p1.x
  let y2 := vec.p1.y
  let z2 := vec.p1.z
  let xv1 : Int := cTrunc ((x1 : K) * s.xx + (y1 : K) * s.xy + (z1 : K) * s.xz)
  let yv1 : Int := cTrunc ((x1 : K) * s.yx + (y1 : K) * s.yy + (z1 : K) * s.yz)
  let zv1 : Int := cTrunc ((x1 : K) * s.zx + (y1 : K) * s.zy + (z1 : K) * s.zz)
  let zvt1 : K := ((zv1 - s.Zoff : Int) : K)
  let r1 : Int × Int × Int :=
    if zvt1 < -5 then
      (cTrunc (256 * ((xv1 : K) / zvt1) + (s.Xoff : K)),
       cTrunc (256 * ((yv1 : K) / zvt1) + (s.Yoff : K)), 1)
    else (0, 0, 0)
  let rx1 := r1.1
  let ry1 := r1.2.1
  let Ok := r1.2.2
  let xv2 : Int := cTrunc ((x2 : K) * s.xx + (y2 : K) * s.xy + (z2 : K) * s.xz)
  let yv2 : Int := cTrunc ((x2 : K) * s.yx + (y2 : K) * s.yy + (z2 : K) * s.yz)
  let zv2 : Int := cTrunc ((x2 : K) * s.zx + (y2 : K) * s.zy + (z2 : K) * s.zz)
  let zvt2 : K := ((zv2 - s.Zoff : Int) : K)
  let r2 : Int × Int × Int :=
    if zvt2 < -5 then
      (cTrunc (256 * ((xv2 : K) / zvt2) + (s.Xoff : K)),
       cTrunc (256 * ((yv2 : K) / zvt2) + (s.Yoff : K)), Ok)
    else (0, 0, 0)
  let rx2 := r2.1
  let ry2 := r2.2.1
  let Ok := r2.2.2
  if Ok = 1 then ⟨⟨rx1, ry1⟩, ⟨rx2, ry2⟩⟩ else ret

/-- The body of the loop of lines 148-151 at index `i`:
`ORender[i] = Render[i]; ProcessLine(&Render[i], Lines[i]);`. -/
def lineStep (s : State K) (i : Nat) : State K :=
  let s := { s with ORender := s.ORender.set i (s.Render.getD i Line2d.zero) }
  { s with
    Render := s.Render.set i
      (ProcessLine s (s.Render.getD i Line2d.zero) (s.Lines.getD i Line3d.zero)) }

/-- The loop `for (i = 0; i < n; i++) lineStep` of lines 148-151. -/
def loopLinesUpTo (s : State K) : Nat → State K
  | 0 => s
  | i + 1 => lineStep (loopLinesUpTo s i) i

/-- Lines 148-151 of `loop` with the bound `LinestoRender`. -/
def loopLines (s : State K) : State K :=
  loopLinesUpTo s s.LinestoRender.toNat

/-- The colour chosen for edge index `i` (lines 167-171). -/
def edgeColor (i : Nat) : Color :=
  if i < 4 then Color.TFT_RED
  else if i > 7 then Color.TFT_GREEN
  else Color.TFT_BLUE

/-- The erase pass of `RenderImage` (lines 160-163). -/
def eraseCalls (s : State K) : List DrawCall :=
  (List.range s.OldLinestoRender.toNat).map fun i =>
    let l := s.ORender.getD i Line2d.zero
    ⟨l.p0.x, l.p0.y, l.p1.x, l.p1.y, Color.TFT_BLACK⟩

/-- The draw pass of `RenderImage` (lines 166-174). -/
def drawCalls (s : State K) : List DrawCall :=
  (List.range s.LinestoRender.toNat).map fun i =>
    let l := s.Render.getD i Line2d.zero
    ⟨l.p0.x, l.p0.y, l.p1.x, l.p1.y, edgeColor i⟩

/-- The function `RenderImage()` (lines 158-177): the new state and the
`drawLine` calls in the order they are made. -/
def RenderImage (s : State K) : State K × List DrawCall :=
  ({ s with OldLinestoRender := s.LinestoRender }, eraseCalls s ++ drawCalls s)

/-- One call of `loop()` (lines 104-156) on the touch poll `touch`. -/
def loop (sinF cosF : K → K) (touch : Option TS_Point) (s : State K) :
    State K × List DrawCall :=
  let s := loopTouch touch s
  let s := SetVars sinF cosF s
  let s := loopZoom s
  let s := loopLines s
  RenderImage s

/-- The state after one call of `loop`. -/
def tick (sinF cosF : K → K) (touch : Option TS_Point) (s : State K) : State K :=
  (loop sinF cosF touch s).1

/-- The state after consecutive calls of `loop`, one per poll of the list. -/
def run (sinF cosF : K → K) : List (Option TS_Point) → State K → State K
  | [], s => s
  | t :: ts, s => run sinF cosF ts (tick sinF cosF t s)

/-- The variables the orientation step of `loop` reads and writes. -/
structure Orient where
  Xan : Int
  Yan : Int
  touchActive : Bool
  lastTouchX : Int
  lastTouchY : Int
deriving DecidableEq

/-- The orientation variables of a state. -/
def orient (s : State K) : Orient :=
  ⟨s.Xan, s.Yan, s.touchActive, s.lastTouchX, s.lastTouchY⟩

/-- Lines 106-135 of `loop` on the orientation variables alone, the
truncation of `Xan + dx * 0.5` written as the truncated integer division of
`2 * Xan + dx` by 2 (`orient_loopTouch` proves it is `loopTouch`). -/
def orientStep (touch : Option TS_Point) (o : Orient) : Orient :=
  match touch with
  | some p =>
    if o.touchActive = false then
      { o with lastTouchX := p.x, lastTouchY := p.y, touchActive := true }
    else
      { o with
        Xan := Int.tdiv (2 * o.Xan + (p.x - o.lastTouchX)) 2
        Yan := Int.tdiv (2 * o.Yan + (p.y - o.lastTouchY)) 2
        lastTouchX := p.x
        lastTouchY := p.y }
  | none =>
    { o with
      touchActive := false
      Xan := Int.tmod (o.Xan + 1) 360
      Yan := Int.tmod (o.Yan + 1) 360 }

/-- Lines 139-145 of `loop` on the pair `(Zoff, inc)` alone (`zoom_tick`
proves it is what a call of `loop` does to the pair). -/
def zoomStep (z : Int × Int) : Int × Int :=
  (z.1 + z.2,
    if z.1 + z.2 > 500 then -1 else if z.1 + z.2 < 160 then 1 else z.2)

/-- The rotated coordinates `(xv, yv, zv)` that `ProcessLine` computes for an
endpoint (lines 209-211 and 222-224). -/
def rotate (s : State K) (p : Point3d) : Int × Int × Int :=
  (cTrunc ((p.x : K) * s.xx + (p.y : K) * s.xy + (p.z : K) * s.xz),
   cTrunc ((p.x : K) * s.yx + (p.y : K) * s.yy + (p.z : K) * s.yz),
   cTrunc ((p.x : K) * s.zx + (p.y : K) * s.zy + (p.z : K) * s.zz))

/-- The camera-relative depth `zvt = zv - Zoff` of an endpoint (lines 213 and
226). -/
def zvt (s : State K) (p : Point3d) : K :=
  (((rotate s p).2.2 - s.Zoff : Int) : K)

/-- The screen point `ProcessLine` computes for an endpoint that passes the
depth test (lines 217-218 and 229-230). -/
def projectPoint (s : State K) (p : Point3d) : Point2d :=
  ⟨cTrunc (256 * (((rotate s p).1 : K) / zvt s p) + (s.Xoff : K)),
   cTrunc (256 * (((rotate s p).2.1 : K) / zvt s p) + (s.Yoff : K))⟩

/-- The state in which one call of `loop` runs `ProcessLine`: after the
orientation step, `SetVars` and the zoom step. -/
def camState (sinF cosF : K → K) (touch : Option TS_Point) (s : State K) : State K :=
  loopZoom (SetVars sinF cosF (loopTouch touch s))

/-- Every entry of the matrix `xx .. zz` lies in `[-1, 1]`. -/
def matBounded (s : State K) : Prop :=
  |s.xx| ≤ 1 ∧ |s.xy| ≤ 1 ∧ |s.xz| ≤ 1 ∧
  |s.yx| ≤ 1 ∧ |s.yy| ≤ 1 ∧ |s.yz| ≤ 1 ∧
  |s.zx| ≤ 1 ∧ |s.zy| ≤ 1 ∧ |s.zz| ≤ 1

/-- Every coordinate of the vertex lies in `[-50, 50]`. -/
def inCube (p : Point3d) : Prop :=
  |p.x| ≤ 50 ∧ |p.y| ≤ 50 ∧ |p.z| ≤ 50

end Model

/-- The matrix `xx .. zz` of a state, by rows, as `ProcessLine` applies it to
a vertex. -/
def matOf {K : Type} (s : State K) : Matrix (Fin 3) (Fin 3) K :=
  !![s.xx, s.xy, s.xz; s.yx, s.yy, s.yz; s.zx, s.zy, s.zz]

/-- The elementary rotation about the X axis with sine `sn` and cosine `cs`,
in the sense the sketch uses: it takes `(x, y, z)` to
`(x, cs*y + sn*z, -sn*y + cs*z)`, the transpose of the counter-clockwise
matrix. Written after the spec's words for the comparison with `SetVars`. -/
def rotX {K : Type} [Field K] (sn cs : K) : Matrix (Fin 3) (Fin 3) K :=
  !![1, 0, 0; 0, cs, sn; 0, -sn, cs]

/-- The elementary rotation about the Y axis with sine `sn` and cosine `cs`,
in the sense the sketch uses: it takes `(x, y, z)` to
`(cs*x - sn*z, y, sn*x + cs*z)`, the transpose of the counter-clockwise
matrix. Written after the spec's words for the comparison with `SetVars`. -/
def rotY {K : Type} [Field K] (sn cs : K) : Matrix (Fin 3) (Fin 3) K :=
  !![cs, 0, -sn; 0, 1, 0; sn, 0, cs]

/-- The number of coordinates in which the endpoints of an edge differ. -/
def diffCount (e : Line3d) : Nat :=
  (if e.p0.x = e.p1.x then 0 else 1) + (if e.p0.y = e.p1.y then 0 else 1) +
    (if e.p0.z = e.p1.z then 0 else 1)

/-- The number of edges of the list that have the vertex as an endpoint. -/
def degree (es : List Line3d) (v : Point3d) : Nat :=
  (es.filter fun e => e.p0 = v ∨ e.p1 = v).length

/-- The twelve edges `cube()` stores in `Lines[0..11]`. -/
def cubeEdges : List Line3d :=
  ((cube (boot : State ℚ)).Lines).take 12

/-- A C library for closed evaluations over `ℚ`: the sine of the zero angle
at every argument. The angles, the anchor and the zoom never read it. -/
def sinZero : ℚ → ℚ := fun _ => 0

/-- The cosine of the zero angle at every argument, the companion of
`sinZero`. -/
def cosZero : ℚ → ℚ := fun _ => 1

/-! ## Auxiliary facts -/

section Facts

set_option linter.unusedSectionVars false
set_option linter.unnecessarySeqFocus false

variable {K : Type} [LinearOrderedField K] [FloorRing K]

/-- The edge loop only writes `Render` and `ORender`. -/
theorem loopLinesUpTo_frame (s : State K) (n : Nat) :
    ∃ R O, loopLinesUpTo s n = { s with Render := R, ORender := O } := by
  induction n with
  | zero => exact ⟨s.Render, s.ORender, rfl⟩
  | succ n ih =>
    obtain ⟨R, O, h⟩ := ih
    rw [loopLinesUpTo, h]
    exact ⟨_, _, rfl⟩

/-- C remainder by 360 in terms of the non-negative remainder. -/
theorem tmod360 (a : Int) :
    Int.tmod a 360 = if 0 ≤ a then a % 360 else -((-a) % 360) := by
  split
  · exact Int.tmod_eq_emod (by assumption) (by decide)
  · have h : a = -(-a) := by omega
    have e : a.tdiv 360 = -((-a) / 360) := by
      rw [← Int.tdiv_eq_ediv (by omega) (by decide), ← Int.neg_tdiv, ← h]
    rw [Int.tmod_def, e]
    omega

/-- Truncated halving brackets its argument. -/
theorem tdiv_two_bounds (m : Int) :
    (0 ≤ m → 2 * m.tdiv 2 ≤ m ∧ m < 2 * m.tdiv 2 + 2) ∧
    (m < 0 → 2 * m.tdiv 2 - 2 < m ∧ m ≤ 2 * m.tdiv 2) := by
  constructor
  · intro h
    rw [Int.tdiv_eq_ediv h (by decide)]
    omega
  · intro h
    have e : m = -(-m) := by omega
    rw [e, Int.neg_tdiv, Int.tdiv_eq_ediv (by omega) (by decide)]
    omega

/-- Characterisation of truncation toward zero. -/
theorem cTrunc_eq (q : K) (z : Int)
    (hpos : 0 ≤ q → (z : K) ≤ q ∧ q < z + 1)
    (hneg : q < 0 → (z : K) - 1 < q ∧ q ≤ z) : cTrunc q = z := by
  unfold cTrunc
  split
  · rename_i h
    exact Int.floor_eq_iff.mpr (hpos h)
  · rename_i h
    exact Int.ceil_eq_iff.mpr (hneg (lt_of_not_le h))

/-- Truncating an integer plus half an integer is truncated halving. -/
theorem cTrunc_half (a d : Int) :
    cTrunc ((a : K) + (d : K) * 0.5) = (2 * a + d).tdiv 2 := by
  have hq : (a : K) + (d : K) * 0.5 = ((2 * a + d : Int) : K) / 2 := by
    push_cast
    norm_num
    ring
  rw [hq]
  obtain ⟨hp, hn⟩ := tdiv_two_bounds (2 * a + d)
  generalize 2 * a + d = m at *
  generalize m.tdiv 2 = z at *
  apply cTrunc_eq
  · intro h
    have hm : (0 : K) ≤ (m : K) := by
      have := mul_nonneg h (by norm_num : (0:K) ≤ 2)
      simpa using this
    have hm' : 0 ≤ m := by exact_mod_cast hm
    obtain ⟨h1, h2⟩ := hp hm'
    have h1' : (2 : K) * z ≤ m := by exact_mod_cast h1
    have h2' : (m : K) < 2 * z + 2 := by exact_mod_cast h2
    constructor
    · linarith
    · linarith
  · intro h
    have hm : (m : K) < 0 := by
      have := mul_neg_of_neg_of_pos h (by norm_num : (0:K) < 2)
      simpa using this
    have hm' : m < 0 := by exact_mod_cast hm
    obtain ⟨h1, h2⟩ := hn hm'
    have h1' : (2 : K) * z - 2 < m := by exact_mod_cast h1
    have h2' : (m : K) ≤ 2 * z := by exact_mod_cast h2
    constructor
    · linarith
    · linarith


/-- The zoom step only writes `Zoff` and `inc`. -/
theorem loopZoom_frame (s : State K) :
    ∃ z i, loopZoom s = { s with Zoff := z, inc := i } := by
  unfold loopZoom
  dsimp only
  split
  · exact ⟨_, _, rfl⟩
  · split
    · exact ⟨_, _, rfl⟩
    · exact ⟨_, _, rfl⟩

/-- One call of `loop` as the orientation, matrix and zoom steps followed by
writes to `Render`, `ORender` and `OldLinestoRender` only. -/
theorem tick_frame (sinF cosF : K → K) (touch : Option TS_Point) (s : State K) :
    ∃ R O n, tick sinF cosF touch s =
      { loopZoom (SetVars sinF cosF (loopTouch touch s)) with
        Render := R, ORender := O, OldLinestoRender := n } := by
  unfold tick loop loopLines RenderImage
  dsimp only
  obtain ⟨R, O, h⟩ := loopLinesUpTo_frame (loopZoom (SetVars sinF cosF (loopTouch touch s)))
    (loopZoom (SetVars sinF cosF (loopTouch touch s))).LinestoRender.toNat
  rw [h]
  exact ⟨_, _, _, rfl⟩

/-- The angle `Xan` after a tick is the one the orientation step left. -/
theorem tick_Xan (sinF cosF : K → K) (touch : Option TS_Point) (s : State K) :
    (tick sinF cosF touch s).Xan = (loopTouch touch s).Xan := by
  obtain ⟨R, O, n, h⟩ := tick_frame sinF cosF touch s
  obtain ⟨z, i, hz⟩ := loopZoom_frame (SetVars sinF cosF (loopTouch touch s))
  rw [h, hz]
  rfl

/-- The angle `Yan` after a tick is the one the orientation step left. -/
theorem tick_Yan (sinF cosF : K → K) (touch : Option TS_Point) (s : State K) :
    (tick sinF cosF touch s).Yan = (loopTouch touch s).Yan := by
  obtain ⟨R, O, n, h⟩ := tick_frame sinF cosF touch s
  obtain ⟨z, i, hz⟩ := loopZoom_frame (SetVars sinF cosF (loopTouch touch s))
  rw [h, hz]
  rfl

/-- The flag `touchActive` after a tick is the one the orientation step left. -/
theorem tick_touchActive (sinF cosF : K → K) (touch : Option TS_Point) (s : State K) :
    (tick sinF cosF touch s).touchActive = (loopTouch touch s).touchActive := by
  obtain ⟨R, O, n, h⟩ := tick_frame sinF cosF touch s
  obtain ⟨z, i, hz⟩ := loopZoom_frame (SetVars sinF cosF (loopTouch touch s))
  rw [h, hz]
  rfl

/-- The anchor `lastTouchX` after a tick is the one the orientation step left. -/
theorem tick_lastTouchX (sinF cosF : K → K) (touch : Option TS_Point) (s : State K) :
    (tick sinF cosF touch s).lastTouchX = (loopTouch touch s).lastTouchX := by
  obtain ⟨R, O, n, h⟩ := tick_frame sinF cosF touch s
  obtain ⟨z, i, hz⟩ := loopZoom_frame (SetVars sinF cosF (loopTouch touch s))
  rw [h, hz]
  rfl

/-- The anchor `lastTouchY` after a tick is the one the orientation step left. -/
theorem tick_lastTouchY (sinF cosF : K → K) (touch : Option TS_Point) (s : State K) :
    (tick sinF cosF touch s).lastTouchY = (loopTouch touch s).lastTouchY := by
  obtain ⟨R, O, n, h⟩ := tick_frame sinF cosF touch s
  obtain ⟨z, i, hz⟩ := loopZoom_frame (SetVars sinF cosF (loopTouch touch s))
  rw [h, hz]
  rfl

/-- The camera distance after a tick. -/
theorem tick_Zoff (sinF cosF : K → K) (touch : Option TS_Point) (s : State K) :
    (tick sinF cosF touch s).Zoff = s.Zoff + s.inc := by
  obtain ⟨R, O, n, h⟩ := tick_frame sinF cosF touch s
  rw [h]
  show (loopZoom (SetVars sinF cosF (loopTouch touch s))).Zoff = _
  unfold loopZoom
  dsimp only
  have e1 : (SetVars sinF cosF (loopTouch touch s)).Zoff = s.Zoff := by
    cases touch <;> simp only [SetVars, loopTouch] <;> split <;> rfl
  have e2 : (SetVars sinF cosF (loopTouch touch s)).inc = s.inc := by
    cases touch <;> simp only [SetVars, loopTouch] <;> split <;> rfl
  split
  · simp only [e1, e2]
  · split <;> simp only [e1, e2]

/-- The zoom increment after a tick. -/
theorem tick_inc (sinF cosF : K → K) (touch : Option TS_Point) (s : State K) :
    (tick sinF cosF touch s).inc =
      if s.Zoff + s.inc > 500 then -1 else if s.Zoff + s.inc < 160 then 1 else s.inc := by
  obtain ⟨R, O, n, h⟩ := tick_frame sinF cosF touch s
  rw [h]
  show (loopZoom (SetVars sinF cosF (loopTouch touch s))).inc = _
  unfold loopZoom
  dsimp only
  have e1 : (SetVars sinF cosF (loopTouch touch s)).Zoff = s.Zoff := by
    cases touch <;> simp only [SetVars, loopTouch] <;> split <;> rfl
  have e2 : (SetVars sinF cosF (loopTouch touch s)).inc = s.inc := by
    cases touch <;> simp only [SetVars, loopTouch] <;> split <;> rfl
  rw [e1, e2]
  split
  · rfl
  · split <;> rfl

/-- The auto-rotation assignment `a = (a + 1) % 360` of lines 133-134. -/
theorem autoStep_nonneg (a : Int) (h : -1 ≤ a) :
    Int.tmod (a + 1) 360 = (a + 1) % 360 :=
  Int.tmod_eq_emod (by omega) (by decide)

/-- Angles after `N` ticks without touch, as an iterate of the wrap step. -/
theorem run_idle_angles (sinF cosF : K → K) (N : Nat) (s : State K) :
    (run sinF cosF (List.replicate N none) s).Xan
        = (fun a : Int => Int.tmod (a + 1) 360)^[N] s.Xan ∧
    (run sinF cosF (List.replicate N none) s).Yan
        = (fun a : Int => Int.tmod (a + 1) 360)^[N] s.Yan := by
  induction N generalizing s with
  | zero => exact ⟨rfl, rfl⟩
  | succ N ih =>
    obtain ⟨hx, hy⟩ := ih (tick sinF cosF none s)
    simp only [List.replicate_succ, run, Function.iterate_succ, Function.comp_apply]
    rw [hx, hy, tick_Xan, tick_Yan]
    exact ⟨rfl, rfl⟩

/-- Iterating the wrap step from a start of at least `-1`. -/
theorem autoStep_iterate_nonneg (a : Int) (h : -1 ≤ a) (N : Nat) (hN : 1 ≤ N) :
    (fun a : Int => Int.tmod (a + 1) 360)^[N] a = (a + N) % 360 := by
  induction N with
  | zero => omega
  | succ N ih =>
    rw [Function.iterate_succ_apply']
    rcases Nat.eq_zero_or_pos N with h0 | hpos
    · subst h0
      simp only [Function.iterate_zero, id_eq]
      rw [autoStep_nonneg a h]
      norm_num
    · rw [ih hpos, tmod360]
      push_cast
      split <;> omega

/-- Iterating the wrap step from any start: congruence and the open range. -/
theorem autoStep_iterate_any (a : Int) (N : Nat) (hN : 1 ≤ N) :
    ((fun a : Int => Int.tmod (a + 1) 360)^[N] a) % 360 = (a + N) % 360 ∧
    -360 < (fun a : Int => Int.tmod (a + 1) 360)^[N] a ∧
    (fun a : Int => Int.tmod (a + 1) 360)^[N] a < 360 := by
  induction N with
  | zero => omega
  | succ N ih =>
    rw [Function.iterate_succ_apply']
    rcases Nat.eq_zero_or_pos N with h0 | hpos
    · subst h0
      simp only [Function.iterate_zero, id_eq]
      rw [tmod360]
      push_cast
      split <;> omega
    · obtain ⟨h1, h2, h3⟩ := ih hpos
      generalize (fun a : Int => Int.tmod (a + 1) 360)^[N] a = b at *
      rw [tmod360]
      push_cast
      split <;> omega

/-- The orientation step of `loop` acts on the orientation variables as
`orientStep`. -/
theorem orient_loopTouch (touch : Option TS_Point) (s : State K) :
    orient (loopTouch touch s) = orientStep touch (orient s) := by
  cases touch with
  | none => rfl
  | some p =>
    unfold loopTouch orientStep
    dsimp only
    by_cases h : s.touchActive = false
    · have h' : (orient s).touchActive = false := h
      rw [if_pos h, if_pos h']
      rfl
    · have h' : ¬ (orient s).touchActive = false := h
      rw [if_neg h, if_neg h']
      simp only [orient, cTrunc_half]

/-- One call of `loop` acts on the orientation variables as `orientStep`. -/
theorem orient_tick (sinF cosF : K → K) (touch : Option TS_Point) (s : State K) :
    orient (tick sinF cosF touch s) = orientStep touch (orient s) := by
  rw [← orient_loopTouch]
  simp only [orient, tick_Xan, tick_Yan, tick_touchActive, tick_lastTouchX, tick_lastTouchY]

/-- A session of calls of `loop` acts on the orientation variables as the
fold of `orientStep`. -/
theorem orient_run (sinF cosF : K → K) (ts : List (Option TS_Point)) (s : State K) :
    orient (run sinF cosF ts s) = ts.foldl (fun o t => orientStep t o) (orient s) := by
  induction ts generalizing s with
  | nil => rfl
  | cons t ts ih => rw [run, ih, orient_tick, List.foldl_cons]

/-- C1, as stated, fails. The session touch (10,10), touch (0,10) from the
setup state is a drag by dx = -10 and leaves Xan = -5; one further tick with
no touch (N = 1) leaves Xan = -4, which is neither (-5 + 1) mod 360 = 356 nor
in [0,360). -/
theorem C1_counterexample :
    (run sinZero cosZero [some ⟨10, 10⟩, some ⟨0, 10⟩] setupState).Xan = -5 ∧
    (run sinZero cosZero (List.replicate 1 none)
      (run sinZero cosZero [some ⟨10, 10⟩, some ⟨0, 10⟩] setupState)).Xan = -4 ∧
    (-4 : Int) ≠ (-5 + 1) % 360 ∧ ¬ (0 ≤ (-4 : Int)) := by
  have h1 : orient (run sinZero cosZero [some ⟨10, 10⟩, some ⟨0, 10⟩] setupState)
      = ⟨-5, 0, true, 0, 10⟩ := by
    rw [orient_run]
    decide
  have h2 : orient (run sinZero cosZero (List.replicate 1 none)
      (run sinZero cosZero [some ⟨10, 10⟩, some ⟨0, 10⟩] setupState))
      = ⟨-4, 1, false, 0, 10⟩ := by
    rw [orient_run, h1]
    decide
  refine ⟨congrArg Orient.Xan h1, congrArg Orient.Xan h2, by decide, by decide⟩

/-- C1 (amended). After N >= 1 consecutive ticks without touch, for every
integer start, Xan is congruent to initial_Xan + N modulo 360 and lies
strictly between -360 and 360; when the start is at least -1 (so for every
start in or above [0,360)) Xan equals (initial_Xan + N) mod 360 and lies in
[0,360). The same holds for Yan. -/
theorem C1_autoRotate_wrap (sinF cosF : K → K) (s : State K) (N : Nat) (hN : 1 ≤ N) :
    ((run sinF cosF (List.replicate N none) s).Xan % 360 = (s.Xan + N) % 360 ∧
      -360 < (run sinF cosF (List.replicate N none) s).Xan ∧
      (run sinF cosF (List.replicate N none) s).Xan < 360 ∧
      (-1 ≤ s.Xan →
        (run sinF cosF (List.replicate N none) s).Xan = (s.Xan + N) % 360 ∧
        0 ≤ (run sinF cosF (List.replicate N none) s).Xan)) ∧
    ((run sinF cosF (List.replicate N none) s).Yan % 360 = (s.Yan + N) % 360 ∧
      -360 < (run sinF cosF (List.replicate N none) s).Yan ∧
      (run sinF cosF (List.replicate N none) s).Yan < 360 ∧
      (-1 ≤ s.Yan →
        (run sinF cosF (List.replicate N none) s).Yan = (s.Yan + N) % 360 ∧
        0 ≤ (run sinF cosF (List.replicate N none) s).Yan)) := by
  obtain ⟨hx, hy⟩ := run_idle_angles sinF cosF N s
  rw [hx, hy]
  obtain ⟨a1, a2, a3⟩ := autoStep_iterate_any s.Xan N hN
  obtain ⟨b1, b2, b3⟩ := autoStep_iterate_any s.Yan N hN
  refine ⟨⟨a1, a2, a3, fun h => ?_⟩, ⟨b1, b2, b3, fun h => ?_⟩⟩
  · rw [autoStep_iterate_nonneg s.Xan h N hN]
    exact ⟨rfl, Int.emod_nonneg _ (by decide)⟩
  · rw [autoStep_iterate_nonneg s.Yan h N hN]
    exact ⟨rfl, Int.emod_nonneg _ (by decide)⟩

/-- Witness of C1: three ticks without touch from Xan = 359, Yan = 400 end at
Xan = 2 and Yan = 43. -/
theorem C1_autoRotate_wrap_witness :
    1 ≤ 3 ∧
    (run sinZero cosZero (List.replicate 3 none)
      { (setupState : State ℚ) with Xan := 359, Yan := 400 }).Xan = 2 ∧
    (run sinZero cosZero (List.replicate 3 none)
      { (setupState : State ℚ) with Xan := 359, Yan := 400 }).Yan = 43 :=
  have h := C1_autoRotate_wrap sinZero cosZero
    { (setupState : State ℚ) with Xan := 359, Yan := 400 } 3 (by decide)
  ⟨by decide, (h.1.2.2.2 (by decide)).1, (h.2.2.2.2 (by decide)).1⟩

/-- The orientation variables of the setup state. -/
theorem orient_setupState : orient (setupState : State K) = ⟨0, 0, false, 0, 0⟩ := rfl

/-- Truncating the sum of an integer and half an even integer is exact. -/
theorem cTrunc_half_even (a d : Int) (h : 2 ∣ d) :
    ((cTrunc ((a : K) + (d : K) * 0.5) : Int) : K) = (a : K) + (d : K) * 0.5 := by
  obtain ⟨k, rfl⟩ := h
  rw [cTrunc_half]
  have e : (2 * a + 2 * k).tdiv 2 = a + k := by
    obtain ⟨hp, hn⟩ := tdiv_two_bounds (2 * a + 2 * k)
    rcases le_or_lt 0 (2 * a + 2 * k) with h0 | h0
    · have := hp h0
      omega
    · have := hn h0
      omega
  rw [e]
  push_cast
  norm_num
  ring

/-- The angles a Dragging tick leaves. -/
theorem tick_drag_angles (sinF cosF : K → K) (s : State K) (p : TS_Point)
    (h : s.touchActive = true) :
    (tick sinF cosF (some p) s).Xan
      = cTrunc ((s.Xan : K) + ((p.x - s.lastTouchX : Int) : K) * 0.5) ∧
    (tick sinF cosF (some p) s).Yan
      = cTrunc ((s.Yan : K) + ((p.y - s.lastTouchY : Int) : K) * 0.5) := by
  rw [tick_Xan, tick_Yan]
  unfold loopTouch
  dsimp only
  rw [if_neg (by simp [h])]
  exact ⟨rfl, rfl⟩

/-- C2, as stated, fails. In the session (10,10), (15,12), (20,8) from the
setup state the second sample leaves Xan = 2, not 0 + (15-10)*0.5 = 2.5, and
the session ends with Xan = 4, not 5 (Yan ends at -1). -/
theorem C2_counterexample :
    (run sinZero cosZero [some ⟨10, 10⟩] setupState).Xan = 0 ∧
    (run sinZero cosZero [some ⟨10, 10⟩, some ⟨15, 12⟩] setupState).Xan = 2 ∧
    ((2 : Int) : ℚ) ≠ ((0 : Int) : ℚ) + ((15 - 10 : Int) : ℚ) * 0.5 ∧
    (run sinZero cosZero [some ⟨10, 10⟩, some ⟨15, 12⟩, some ⟨20, 8⟩] setupState).Xan = 4 ∧
    (4 : Int) ≠ 5 ∧
    (run sinZero cosZero [some ⟨10, 10⟩, some ⟨15, 12⟩, some ⟨20, 8⟩] setupState).Yan
      = -1 := by
  have h1 : orient (run sinZero cosZero [some ⟨10, 10⟩] setupState)
      = ⟨0, 0, true, 10, 10⟩ := by
    rw [orient_run]
    decide
  have h2 : orient (run sinZero cosZero [some ⟨10, 10⟩, some ⟨15, 12⟩] setupState)
      = ⟨2, 1, true, 15, 12⟩ := by
    rw [orient_run]
    decide
  have h3 : orient (run sinZero cosZero
      [some ⟨10, 10⟩, some ⟨15, 12⟩, some ⟨20, 8⟩] setupState)
      = ⟨4, -1, true, 20, 8⟩ := by
    rw [orient_run]
    decide
  refine ⟨congrArg Orient.Xan h1, congrArg Orient.Xan h2, by norm_num,
    congrArg Orient.Xan h3, by decide, congrArg Orient.Yan h3⟩

/-- C2 (amended). On a Dragging tick (touched, touchActive already set) with
delta (dx, dy) = sample minus latched anchor, Xan becomes the truncation
toward zero of Xan + dx*0.5 and Yan that of Yan + dy*0.5; the increase is
exactly dx*0.5 (dy*0.5) when dx (dy) is even. On the session (10,10),
(15,12), (20,8) from the setup state the first sample changes no angle and
latches the anchor, the second leaves Xan = 2 and Yan = 1, the third leaves
Xan = 4 and Yan = -1. -/
theorem C2_drag_accumulation (sinF cosF : K → K) (s : State K) (p : TS_Point)
    (h : s.touchActive = true) :
    (tick sinF cosF (some p) s).Xan
      = cTrunc ((s.Xan : K) + ((p.x - s.lastTouchX : Int) : K) * 0.5) ∧
    (tick sinF cosF (some p) s).Yan
      = cTrunc ((s.Yan : K) + ((p.y - s.lastTouchY : Int) : K) * 0.5) ∧
    (2 ∣ p.x - s.lastTouchX →
      (((tick sinF cosF (some p) s).Xan : Int) : K)
        = (s.Xan : K) + ((p.x - s.lastTouchX : Int) : K) * 0.5) ∧
    (2 ∣ p.y - s.lastTouchY →
      (((tick sinF cosF (some p) s).Yan : Int) : K)
        = (s.Yan : K) + ((p.y - s.lastTouchY : Int) : K) * 0.5) ∧
    orient (run sinF cosF [some ⟨10, 10⟩] setupState) = ⟨0, 0, true, 10, 10⟩ ∧
    orient (run sinF cosF [some ⟨10, 10⟩, some ⟨15, 12⟩] setupState)
      = ⟨2, 1, true, 15, 12⟩ ∧
    orient (run sinF cosF [some ⟨10, 10⟩, some ⟨15, 12⟩, some ⟨20, 8⟩] setupState)
      = ⟨4, -1, true, 20, 8⟩ := by
  obtain ⟨hx, hy⟩ := tick_drag_angles sinF cosF s p h
  refine ⟨hx, hy, fun hd => ?_, fun hd => ?_, ?_, ?_, ?_⟩
  · rw [hx]
    exact cTrunc_half_even _ _ hd
  · rw [hy]
    exact cTrunc_half_even _ _ hd
  · rw [orient_run, orient_setupState]
    decide
  · rw [orient_run, orient_setupState]
    decide
  · rw [orient_run, orient_setupState]
    decide

/-- Witness of C2: with the anchor latched at (10,10) and both angles 0, the
sample (15,12) leaves Xan = 2 and Yan = 1. -/
theorem C2_drag_accumulation_witness :
    ({ (setupState : State ℚ) with
        touchActive := true, lastTouchX := 10, lastTouchY := 10 }).touchActive = true ∧
    (tick sinZero cosZero (some ⟨15, 12⟩)
      { (setupState : State ℚ) with
        touchActive := true, lastTouchX := 10, lastTouchY := 10 }).Xan = 2 ∧
    (tick sinZero cosZero (some ⟨15, 12⟩)
      { (setupState : State ℚ) with
        touchActive := true, lastTouchX := 10, lastTouchY := 10 }).Yan = 1 :=
  have h := C2_drag_accumulation sinZero cosZero
    { (setupState : State ℚ) with touchActive := true, lastTouchX := 10, lastTouchY := 10 }
    ⟨15, 12⟩ rfl
  ⟨rfl, h.1.trans ((cTrunc_half _ _).trans (by decide)),
    h.2.1.trans ((cTrunc_half _ _).trans (by decide))⟩

/-- One call of `loop` acts on `(Zoff, inc)` as `zoomStep`. -/
theorem zoom_tick (sinF cosF : K → K) (touch : Option TS_Point) (s : State K) :
    ((tick sinF cosF touch s).Zoff, (tick sinF cosF touch s).inc)
      = zoomStep (s.Zoff, s.inc) := by
  rw [tick_Zoff, tick_inc]
  rfl

/-- A session of calls of `loop` acts on `(Zoff, inc)` as the iterate of
`zoomStep`, whatever the touch polls are. -/
theorem zoom_run (sinF cosF : K → K) (ts : List (Option TS_Point)) (s : State K) :
    ((run sinF cosF ts s).Zoff, (run sinF cosF ts s).inc)
      = zoomStep^[ts.length] (s.Zoff, s.inc) := by
  induction ts generalizing s with
  | nil => rfl
  | cons t ts ih =>
    rw [run, ih, zoom_tick, List.length_cons, Function.iterate_succ_apply]

/-- The states of the zoom oscillation reachable from `Zoff = 500, inc = -2`. -/
theorem zoomStep_inv500 (z i : Int)
    (h : (i = -2 ∧ 160 ≤ z ∧ z ≤ 500 ∧ z % 2 = 0) ∨ (i = 1 ∧ 158 ≤ z ∧ z ≤ 500) ∨
      (i = -1 ∧ 160 ≤ z ∧ z ≤ 501)) :
    ((zoomStep (z, i)).2 = -2 ∧ 160 ≤ (zoomStep (z, i)).1 ∧ (zoomStep (z, i)).1 ≤ 500 ∧
        (zoomStep (z, i)).1 % 2 = 0) ∨
      ((zoomStep (z, i)).2 = 1 ∧ 158 ≤ (zoomStep (z, i)).1 ∧ (zoomStep (z, i)).1 ≤ 500) ∨
      ((zoomStep (z, i)).2 = -1 ∧ 160 ≤ (zoomStep (z, i)).1 ∧
        (zoomStep (z, i)).1 ≤ 501) := by
  simp only [zoomStep]
  split
  · omega
  · split <;> omega

/-- The invariant of `zoomStep_inv500` holds along every iterate. -/
theorem zoomStep_iterate_inv500 (n : Nat) (z i : Int)
    (h : (i = -2 ∧ 160 ≤ z ∧ z ≤ 500 ∧ z % 2 = 0) ∨ (i = 1 ∧ 158 ≤ z ∧ z ≤ 500) ∨
      (i = -1 ∧ 160 ≤ z ∧ z ≤ 501)) :
    ((zoomStep^[n] (z, i)).2 = -2 ∧ 160 ≤ (zoomStep^[n] (z, i)).1 ∧
        (zoomStep^[n] (z, i)).1 ≤ 500 ∧ (zoomStep^[n] (z, i)).1 % 2 = 0) ∨
      ((zoomStep^[n] (z, i)).2 = 1 ∧ 158 ≤ (zoomStep^[n] (z, i)).1 ∧
        (zoomStep^[n] (z, i)).1 ≤ 500) ∨
      ((zoomStep^[n] (z, i)).2 = -1 ∧ 160 ≤ (zoomStep^[n] (z, i)).1 ∧
        (zoomStep^[n] (z, i)).1 ≤ 501) := by
  induction n with
  | zero => exact h
  | succ n ih =>
    rw [Function.iterate_succ_apply']
    exact zoomStep_inv500 _ _ ih

set_option maxRecDepth 100000 in
/-- The first descent from 500 in steps of 2 ends below 160. -/
theorem zoomStep_iterate_171 : zoomStep^[171] (500, -2) = (158, 1) := by
  decide

set_option maxRecDepth 100000 in
/-- The following ascent in steps of 1 ends above 500. -/
theorem zoomStep_iterate_343 : zoomStep^[343] (158, 1) = (501, -1) := by
  decide

/-- The zoom pair after `n` ticks without touch, read off an evaluated
iterate of `zoomStep`. -/
theorem run_idle_zoom (sinF cosF : K → K) (n : Nat) (s : State K) (z i : Int)
    (h : zoomStep^[n] (s.Zoff, s.inc) = (z, i)) :
    (run sinF cosF (List.replicate n none) s).Zoff = z ∧
    (run sinF cosF (List.replicate n none) s).inc = i := by
  have h1 := zoom_run sinF cosF (List.replicate n none) s
  rw [List.length_replicate, h] at h1
  exact ⟨congrArg Prod.fst h1, congrArg Prod.snd h1⟩

/-- The descent from 500 followed by the ascent: 514 steps end above 500. -/
theorem zoomStep_iterate_514 : zoomStep^[514] (500, -2) = (501, -1) := by
  have e : (514 : Nat) = 343 + 171 := rfl
  rw [e, Function.iterate_add_apply, zoomStep_iterate_171]
  exact zoomStep_iterate_343

/-- C3, as stated, fails. From Zoff = 500, inc = -2 the 171st tick leaves
Zoff = 158, below 160, and the 514th tick leaves Zoff = 501, above 500. -/
theorem C3_counterexample :
    ({ (setupState : State ℚ) with Zoff := 500 }).Zoff = 500 ∧
    ({ (setupState : State ℚ) with Zoff := 500 }).inc = -2 ∧
    (run sinZero cosZero (List.replicate 171 none)
      { (setupState : State ℚ) with Zoff := 500 }).Zoff = 158 ∧
    (158 : Int) < 160 ∧
    (run sinZero cosZero (List.replicate 514 none)
      { (setupState : State ℚ) with Zoff := 500 }).Zoff = 501 ∧
    (500 : Int) < 501 :=
  ⟨rfl, rfl,
    (run_idle_zoom sinZero cosZero 171 { (setupState : State ℚ) with Zoff := 500 } 158 1
      zoomStep_iterate_171).1,
    by decide,
    (run_idle_zoom sinZero cosZero 514 { (setupState : State ℚ) with Zoff := 500 } 501 (-1)
      zoomStep_iterate_514).1,
    by decide⟩

/-- C3 (amended). Starting from Zoff = 500 and inc = -2, after any number of
ticks (touched or not) Zoff stays within [158, 501], and on every tick the
sign of inc flips exactly when Zoff leaves [160, 500] on that tick (it is
inside before the tick and above 500 or below 160 after it). -/
theorem C3_zoom_bounds (sinF cosF : K → K) (ts : List (Option TS_Point))
    (t : Option TS_Point) (s0 : State K) (hz : s0.Zoff = 500) (hi : s0.inc = -2) :
    158 ≤ (run sinF cosF ts s0).Zoff ∧ (run sinF cosF ts s0).Zoff ≤ 501 ∧
    (Int.sign (tick sinF cosF t (run sinF cosF ts s0)).inc
        ≠ Int.sign (run sinF cosF ts s0).inc ↔
      (160 ≤ (run sinF cosF ts s0).Zoff ∧ (run sinF cosF ts s0).Zoff ≤ 500 ∧
        ((tick sinF cosF t (run sinF cosF ts s0)).Zoff > 500 ∨
          (tick sinF cosF t (run sinF cosF ts s0)).Zoff < 160))) := by
  have inv := zoomStep_iterate_inv500 ts.length s0.Zoff s0.inc
    (Or.inl ⟨hi, by omega, by omega, by omega⟩)
  rw [← zoom_run sinF cosF ts s0] at inv
  simp only at inv
  rw [tick_Zoff, tick_inc]
  generalize (run sinF cosF ts s0).Zoff = z at *
  generalize (run sinF cosF ts s0).inc = i at *
  have s2 : Int.sign (-2) = -1 := rfl
  have s1 : Int.sign (-1) = -1 := rfl
  have p1 : Int.sign 1 = 1 := rfl
  rcases inv with ⟨rfl, h1, h2, _⟩ | ⟨rfl, h1, h2⟩ | ⟨rfl, h1, h2⟩
  · refine ⟨by omega, by omega, ?_⟩
    split
    · omega
    · split
      · rw [s2, p1]
        omega
      · rw [s2]
        omega
  · refine ⟨by omega, by omega, ?_⟩
    split
    · rw [s1, p1]
      omega
    · split
      · rw [p1]
        omega
      · rw [p1]
        omega
  · refine ⟨by omega, by omega, ?_⟩
    split
    · rw [s1]
      omega
    · split
      · rw [s1, p1]
        omega
      · rw [s1]
        omega

/-- Witness of C3: from Zoff = 500, inc = -2 the state after 171 ticks
without touch has Zoff within [158, 501]. -/
theorem C3_zoom_bounds_witness :
    ({ (setupState : State ℚ) with Zoff := 500 }).Zoff = 500 ∧
    ({ (setupState : State ℚ) with Zoff := 500 }).inc = -2 ∧
    158 ≤ (run sinZero cosZero (List.replicate 171 none)
      { (setupState : State ℚ) with Zoff := 500 }).Zoff ∧
    (run sinZero cosZero (List.replicate 171 none)
      { (setupState : State ℚ) with Zoff := 500 }).Zoff ≤ 501 :=
  have h := C3_zoom_bounds sinZero cosZero (List.replicate 171 none) none
    { (setupState : State ℚ) with Zoff := 500 } rfl rfl
  ⟨rfl, rfl, h.1, h.2.1⟩

/-- The function `ProcessLine` in closed form: both endpoints pass the depth
test and the projected edge is written, or `*ret` is left as it was. -/
theorem ProcessLine_eq (s : State K) (ret : Line2d) (vec : Line3d) :
    ProcessLine s ret vec =
      if zvt s vec.p0 < -5 ∧ zvt s vec.p1 < -5 then
        ⟨projectPoint s vec.p0, projectPoint s vec.p1⟩
      else ret := by
  unfold ProcessLine projectPoint zvt rotate
  dsimp only
  generalize (((cTrunc ((vec.p0.x : K) * s.zx + (vec.p0.y : K) * s.zy
      + (vec.p0.z : K) * s.zz) - s.Zoff : Int) : K)) = z0
  generalize (((cTrunc ((vec.p1.x : K) * s.zx + (vec.p1.y : K) * s.zy
      + (vec.p1.z : K) * s.zz) - s.Zoff : Int) : K)) = z1
  by_cases h0 : z0 < -5 <;> by_cases h1 : z1 < -5 <;> simp [h0, h1]

/-- Reading a list after one write. -/
theorem getD_set {α : Type} (l : List α) (i j : Nat) (a d : α) :
    (l.set i a).getD j d = if i = j ∧ i < l.length then a else l.getD j d := by
  by_cases h : i = j
  · subst h
    by_cases h2 : i < l.length
    · simp [List.getElem?_set_self, h2]
    · rw [List.set_eq_of_length_le (Nat.le_of_not_lt h2)]
      simp [h2]
  · simp [List.getElem?_set_ne h, h]

/-- The edge loop of lines 148-151 after `n` rounds: entry `i < n` of `ORender`
holds the old `Render[i]` and entry `i < n` of `Render` holds what
`ProcessLine` made of it; the other entries are as before. -/
theorem loopLinesUpTo_spec (s : State K) (n : Nat) :
    (loopLinesUpTo s n).Render.length = s.Render.length ∧
    (loopLinesUpTo s n).ORender.length = s.ORender.length ∧
    ∀ i,
      (loopLinesUpTo s n).Render.getD i Line2d.zero =
        (if i < n ∧ i < s.Render.length then
          ProcessLine s (s.Render.getD i Line2d.zero) (s.Lines.getD i Line3d.zero)
        else s.Render.getD i Line2d.zero) ∧
      (loopLinesUpTo s n).ORender.getD i Line2d.zero =
        (if i < n ∧ i < s.ORender.length then s.Render.getD i Line2d.zero
        else s.ORender.getD i Line2d.zero) := by
  induction n with
  | zero =>
    refine ⟨rfl, rfl, fun i => ?_⟩
    simp [loopLinesUpTo]
  | succ n ih =>
    obtain ⟨R, O, h⟩ := loopLinesUpTo_frame s n
    rw [loopLinesUpTo]
    rw [h] at ih ⊢
    obtain ⟨hR, hO, hi⟩ := ih
    simp only at hR hO hi
    have hn := hi n
    simp only [lt_irrefl, false_and, if_false] at hn
    obtain ⟨hnR, hnO⟩ := hn
    have hP : ∀ (O2 : List Line2d) (ret : Line2d) (vec : Line3d),
        ProcessLine { s with Render := R, ORender := O2 } ret vec = ProcessLine s ret vec :=
      fun _ _ _ => rfl
    simp only [lineStep, List.length_set, hR, hO, hP, hnR]
    refine ⟨trivial, trivial, fun i => ?_⟩
    obtain ⟨h1, h2⟩ := hi i
    rw [getD_set, getD_set, h1, h2, hR, hO]
    by_cases hin : n = i
    · subst hin
      by_cases hl : n < s.Render.length
      · by_cases hl2 : n < s.ORender.length
        · simp [hl, hl2]
        · simp [hl, hl2]
      · by_cases hl2 : n < s.ORender.length
        · simp [hl, hl2]
        · simp [hl, hl2]
    · have e1 : (i < n + 1) = (i < n) := by
        apply propext
        omega
      simp only [hin, false_and, if_false, e1]
      exact ⟨trivial, trivial⟩

/-- The steps of `loop` before the edge loop leave the arrays, the edge
counts and the screen offsets alone. -/
theorem camState_frame (sinF cosF : K → K) (touch : Option TS_Point) (s : State K) :
    (camState sinF cosF touch s).Render = s.Render ∧
    (camState sinF cosF touch s).ORender = s.ORender ∧
    (camState sinF cosF touch s).Lines = s.Lines ∧
    (camState sinF cosF touch s).LinestoRender = s.LinestoRender ∧
    (camState sinF cosF touch s).OldLinestoRender = s.OldLinestoRender ∧
    (camState sinF cosF touch s).Xoff = s.Xoff ∧
    (camState sinF cosF touch s).Yoff = s.Yoff := by
  obtain ⟨z, i, hz⟩ := loopZoom_frame (SetVars sinF cosF (loopTouch touch s))
  unfold camState
  rw [hz]
  cases touch with
  | none => exact ⟨rfl, rfl, rfl, rfl, rfl, rfl, rfl⟩
  | some p =>
    simp only [SetVars, loopTouch]
    split <;> exact ⟨rfl, rfl, rfl, rfl, rfl, rfl, rfl⟩

/-- One call of `loop` as the edge loop run in `camState`, followed by the
assignment to `OldLinestoRender`. -/
theorem tick_eq (sinF cosF : K → K) (touch : Option TS_Point) (s : State K) :
    tick sinF cosF touch s =
      { loopLinesUpTo (camState sinF cosF touch s)
          (camState sinF cosF touch s).LinestoRender.toNat with
        OldLinestoRender := (loopLinesUpTo (camState sinF cosF touch s)
          (camState sinF cosF touch s).LinestoRender.toNat).LinestoRender } := rfl

/-- The arrays after one call of `loop`: entry `i` below the edge count of
`ORender` holds the previous `Render[i]`, and that of `Render` holds what
`ProcessLine`, run in `camState`, made of the previous `Render[i]`. -/
theorem tick_arrays (sinF cosF : K → K) (touch : Option TS_Point) (s : State K) (i : Nat) :
    (tick sinF cosF touch s).Render.getD i Line2d.zero =
      (if i < s.LinestoRender.toNat ∧ i < s.Render.length then
        ProcessLine (camState sinF cosF touch s) (s.Render.getD i Line2d.zero)
          (s.Lines.getD i Line3d.zero)
      else s.Render.getD i Line2d.zero) ∧
    (tick sinF cosF touch s).ORender.getD i Line2d.zero =
      (if i < s.LinestoRender.toNat ∧ i < s.ORender.length then s.Render.getD i Line2d.zero
      else s.ORender.getD i Line2d.zero) := by
  obtain ⟨hR, hO, hL, hn, _, _, _⟩ := camState_frame sinF cosF touch s
  obtain ⟨_, _, h⟩ := loopLinesUpTo_spec (camState sinF cosF touch s)
    (camState sinF cosF touch s).LinestoRender.toNat
  have hi := h i
  rw [hR, hO, hL, hn] at hi
  rw [tick_eq, hn]
  exact hi

/-- The lengths of the arrays and the edge counts after one call of `loop`. -/
theorem tick_sizes (sinF cosF : K → K) (touch : Option TS_Point) (s : State K) :
    (tick sinF cosF touch s).Render.length = s.Render.length ∧
    (tick sinF cosF touch s).ORender.length = s.ORender.length ∧
    (tick sinF cosF touch s).Lines = s.Lines ∧
    (tick sinF cosF touch s).LinestoRender = s.LinestoRender ∧
    (tick sinF cosF touch s).OldLinestoRender = s.LinestoRender := by
  obtain ⟨hR, hO, hL, hn, _, _, _⟩ := camState_frame sinF cosF touch s
  obtain ⟨h1, h2, _⟩ := loopLinesUpTo_spec (camState sinF cosF touch s)
    (camState sinF cosF touch s).LinestoRender.toNat
  obtain ⟨R, O, hf⟩ := loopLinesUpTo_frame (camState sinF cosF touch s)
    (camState sinF cosF touch s).LinestoRender.toNat
  rw [hR] at h1
  rw [hO] at h2
  rw [tick_eq]
  refine ⟨h1, h2, ?_, ?_, ?_⟩
  · show (loopLinesUpTo (camState sinF cosF touch s) _).Lines = _
    rw [hf]
    exact hL
  · show (loopLinesUpTo (camState sinF cosF touch s) _).LinestoRender = _
    rw [hf]
    exact hn
  · show (loopLinesUpTo (camState sinF cosF touch s) _).LinestoRender = _
    rw [hf]
    exact hn

/-- C4. Whenever the depth zvt = zv - Zoff of either endpoint (the first
only, the second only, or both) is at least -5, ProcessLine returns *ret with
all four coordinates unchanged; hence, for every edge index i below
LinestoRender (and inside the arrays) whose edge fails the depth test in the
state in which loop runs ProcessLine, after the tick Render[i] equals
ORender[i], the previous frame's Render[i]. -/
theorem C4_depth_gating (sinF cosF : K → K) (touch : Option TS_Point) (s : State K) :
    (∀ (c : State K) (ret : Line2d) (vec : Line3d),
      (-5 ≤ zvt c vec.p0 ∨ -5 ≤ zvt c vec.p1) → ProcessLine c ret vec = ret) ∧
    (∀ i, i < s.LinestoRender.toNat → i < s.Render.length → i < s.ORender.length →
      (-5 ≤ zvt (camState sinF cosF touch s) (s.Lines.getD i Line3d.zero).p0 ∨
        -5 ≤ zvt (camState sinF cosF touch s) (s.Lines.getD i Line3d.zero).p1) →
      (tick sinF cosF touch s).Render.getD i Line2d.zero
          = (tick sinF cosF touch s).ORender.getD i Line2d.zero ∧
      (tick sinF cosF touch s).Render.getD i Line2d.zero
          = s.Render.getD i Line2d.zero) := by
  have gate : ∀ (c : State K) (ret : Line2d) (vec : Line3d),
      (-5 ≤ zvt c vec.p0 ∨ -5 ≤ zvt c vec.p1) → ProcessLine c ret vec = ret := by
    intro c ret vec h
    rw [ProcessLine_eq, if_neg]
    rintro ⟨h0, h1⟩
    rcases h with h | h
    · exact absurd h0 (not_lt.mpr h)
    · exact absurd h1 (not_lt.mpr h)
  refine ⟨gate, fun i hi hR hO hz => ?_⟩
  obtain ⟨h1, h2⟩ := tick_arrays sinF cosF touch s i
  rw [h1, h2, if_pos ⟨hi, hR⟩, if_pos ⟨hi, hO⟩, gate _ _ _ hz]
  exact ⟨rfl, rfl⟩

/-- Truncation fixes the integers. -/
theorem cTrunc_intCast (n : Int) : cTrunc (n : K) = n := by
  apply cTrunc_eq
  · intro _
    exact ⟨le_refl _, by linarith⟩
  · intro _
    exact ⟨by linarith, le_refl _⟩

/-- Witness of C4: with Zoff = 0 and the matrix of the zero angle, the first
endpoint of edge 0, (-50,-50,50), has depth 50, so the tick leaves Render[0]
equal to ORender[0], the zero entry. -/
theorem C4_depth_gating_witness :
    zvt (camState sinZero cosZero (some ⟨0, 0⟩)
      { (setupState : State ℚ) with Zoff := 0, inc := 0 })
      (({ (setupState : State ℚ) with Zoff := 0, inc := 0 }).Lines.getD 0 Line3d.zero).p0
      = 50 ∧
    (tick sinZero cosZero (some ⟨0, 0⟩)
      { (setupState : State ℚ) with Zoff := 0, inc := 0 }).Render.getD 0 Line2d.zero
      = (tick sinZero cosZero (some ⟨0, 0⟩)
      { (setupState : State ℚ) with Zoff := 0, inc := 0 }).ORender.getD 0 Line2d.zero ∧
    (tick sinZero cosZero (some ⟨0, 0⟩)
      { (setupState : State ℚ) with Zoff := 0, inc := 0 }).Render.getD 0 Line2d.zero
      = Line2d.zero := by
  have hz : zvt (camState sinZero cosZero (some ⟨0, 0⟩)
      { (setupState : State ℚ) with Zoff := 0, inc := 0 })
      (({ (setupState : State ℚ) with Zoff := 0, inc := 0 }).Lines.getD 0 Line3d.zero).p0
      = 50 := by
    have e : cTrunc ((50 : Int) : ℚ) = 50 := cTrunc_intCast 50
    simp only [zvt, rotate, camState, loopZoom, SetVars, loopTouch, sinZero, cosZero,
      setupState, setup, cube, boot, setLine]
    norm_num
    have e2 : cTrunc (50 : ℚ) = 50 := by exact_mod_cast e
    simp [e2]
  have h := (C4_depth_gating sinZero cosZero (some ⟨0, 0⟩)
    { (setupState : State ℚ) with Zoff := 0, inc := 0 }).2 0 (by decide) (by decide)
    (by decide) (Or.inl (by rw [hz]; norm_num))
  exact ⟨hz, h.1, h.2⟩

/-- A tick without touch clears `touchActive`. -/
theorem tick_none_touchActive (sinF cosF : K → K) (s : State K) :
    (tick sinF cosF none s).touchActive = false := by
  rw [tick_touchActive]
  rfl

/-- The first touched tick after `touchActive` was cleared latches the sample
and leaves the angles alone. -/
theorem tick_latch (sinF cosF : K → K) (s : State K) (p : TS_Point)
    (h : s.touchActive = false) :
    (tick sinF cosF (some p) s).Xan = s.Xan ∧
    (tick sinF cosF (some p) s).Yan = s.Yan ∧
    (tick sinF cosF (some p) s).lastTouchX = p.x ∧
    (tick sinF cosF (some p) s).lastTouchY = p.y ∧
    (tick sinF cosF (some p) s).touchActive = true := by
  rw [tick_Xan, tick_Yan, tick_lastTouchX, tick_lastTouchY, tick_touchActive]
  unfold loopTouch
  dsimp only
  rw [if_pos h]
  exact ⟨rfl, rfl, rfl, rfl, rfl⟩

/-- C5. On every touched tick that is the first tick after setup or follows
a tick without touch, whatever the sample and whatever anchor lastTouchX,
lastTouchY an earlier drag session left, Xan and Yan are unchanged, the
anchor becomes the current sample and touchActive becomes true. -/
theorem C5_anchor_latch (sinF cosF : K → K) (s : State K) (p : TS_Point)
    (h : s = setupState ∨ ∃ s0, s = tick sinF cosF none s0) :
    (tick sinF cosF (some p) s).Xan = s.Xan ∧
    (tick sinF cosF (some p) s).Yan = s.Yan ∧
    (tick sinF cosF (some p) s).lastTouchX = p.x ∧
    (tick sinF cosF (some p) s).lastTouchY = p.y ∧
    (tick sinF cosF (some p) s).touchActive = true := by
  apply tick_latch
  rcases h with rfl | ⟨s0, rfl⟩
  · rfl
  · exact tick_none_touchActive sinF cosF s0

/-- Witness of C5: a drag session left the anchor (100,200) and Xan = 7,
Yan = -3; after one tick without touch (Xan = 8, Yan = -2) the sample (5,5)
leaves Xan = 8 and Yan = -2 and becomes the anchor. -/
theorem C5_anchor_latch_witness :
    (tick sinZero cosZero (some ⟨5, 5⟩) (tick sinZero cosZero none
      { (setupState : State ℚ) with
        touchActive := true, lastTouchX := 100, lastTouchY := 200,
        Xan := 7, Yan := -3 })).Xan = 8 ∧
    (tick sinZero cosZero (some ⟨5, 5⟩) (tick sinZero cosZero none
      { (setupState : State ℚ) with
        touchActive := true, lastTouchX := 100, lastTouchY := 200,
        Xan := 7, Yan := -3 })).Yan = -2 ∧
    (tick sinZero cosZero (some ⟨5, 5⟩) (tick sinZero cosZero none
      { (setupState : State ℚ) with
        touchActive := true, lastTouchX := 100, lastTouchY := 200,
        Xan := 7, Yan := -3 })).lastTouchX = 5 ∧
    (tick sinZero cosZero (some ⟨5, 5⟩) (tick sinZero cosZero none
      { (setupState : State ℚ) with
        touchActive := true, lastTouchX := 100, lastTouchY := 200,
        Xan := 7, Yan := -3 })).touchActive = true :=
  have h := C5_anchor_latch sinZero cosZero (tick sinZero cosZero none
      { (setupState : State ℚ) with
        touchActive := true, lastTouchX := 100, lastTouchY := 200,
        Xan := 7, Yan := -3 }) ⟨5, 5⟩ (Or.inr ⟨_, rfl⟩)
  ⟨h.1.trans ((tick_Xan _ _ _ _).trans (by decide)),
    h.2.1.trans ((tick_Yan _ _ _ _).trans (by decide)), h.2.2.1, h.2.2.2.2⟩

/-- The `drawLine` calls of one call of `loop`: the erase pass over the
`ORender` of the new state, then the draw pass over its `Render`. -/
theorem loop_calls (sinF cosF : K → K) (touch : Option TS_Point) (s : State K) :
    (loop sinF cosF touch s).2 =
      (List.range s.OldLinestoRender.toNat).map (fun i =>
        (⟨((tick sinF cosF touch s).ORender.getD i Line2d.zero).p0.x,
          ((tick sinF cosF touch s).ORender.getD i Line2d.zero).p0.y,
          ((tick sinF cosF touch s).ORender.getD i Line2d.zero).p1.x,
          ((tick sinF cosF touch s).ORender.getD i Line2d.zero).p1.y,
          Color.TFT_BLACK⟩ : DrawCall)) ++
      (List.range s.LinestoRender.toNat).map (fun i =>
        (⟨((tick sinF cosF touch s).Render.getD i Line2d.zero).p0.x,
          ((tick sinF cosF touch s).Render.getD i Line2d.zero).p0.y,
          ((tick sinF cosF touch s).Render.getD i Line2d.zero).p1.x,
          ((tick sinF cosF touch s).Render.getD i Line2d.zero).p1.y,
          edgeColor i⟩ : DrawCall)) := by
  obtain ⟨_, _, _, hn, ho, _, _⟩ := camState_frame sinF cosF touch s
  obtain ⟨R, O, hf⟩ := loopLinesUpTo_frame (camState sinF cosF touch s)
    (camState sinF cosF touch s).LinestoRender.toNat
  have e1 : (loopLinesUpTo (camState sinF cosF touch s)
      (camState sinF cosF touch s).LinestoRender.toNat).OldLinestoRender
      = s.OldLinestoRender := by
    rw [hf]
    exact ho
  have e2 : (loopLinesUpTo (camState sinF cosF touch s)
      (camState sinF cosF touch s).LinestoRender.toNat).LinestoRender
      = s.LinestoRender := by
    rw [hf]
    exact hn
  rw [← e1, ← e2]
  rfl

/-- The shape every state reachable from the setup state keeps: twelve
edges in arrays of twenty entries. -/
theorem run_sizes (sinF cosF : K → K) (ts : List (Option TS_Point)) (s : State K)
    (h : s.LinestoRender = 12 ∧ s.OldLinestoRender = 12 ∧ s.Render.length = 20 ∧
      s.ORender.length = 20) :
    (run sinF cosF ts s).LinestoRender = 12 ∧ (run sinF cosF ts s).OldLinestoRender = 12 ∧
    (run sinF cosF ts s).Render.length = 20 ∧ (run sinF cosF ts s).ORender.length = 20 ∧
    (run sinF cosF ts s).Lines = s.Lines := by
  induction ts generalizing s with
  | nil => exact ⟨h.1, h.2.1, h.2.2.1, h.2.2.2, rfl⟩
  | cons t ts ih =>
    obtain ⟨h1, h2, h3, h4, h5⟩ := tick_sizes sinF cosF t s
    rw [run]
    have := ih (tick sinF cosF t s)
      ⟨h4.trans h.1, h5.trans h.1, h1.trans h.2.2.1, h2.trans h.2.2.2⟩
    rw [h3] at this
    exact this

/-- The shape of the setup state. -/
theorem setupState_sizes :
    (setupState : State K).LinestoRender = 12 ∧
    (setupState : State K).OldLinestoRender = 12 ∧
    (setupState : State K).Render.length = 20 ∧
    (setupState : State K).ORender.length = 20 :=
  ⟨rfl, rfl, rfl, rfl⟩

/-- C6. In every state reachable from the setup state OldLinestoRender =
LinestoRender = 12, and for two consecutive ticks t, t+1 and every index
i < 12: call number i of tick t+1 erases, in TFT_BLACK, exactly the segment
Render[i] that call number 12 + i of tick t drew in the colour of edge i
(which is not TFT_BLACK). -/
theorem C6_generation_handover (sinF cosF : K → K) (ts : List (Option TS_Point))
    (a b : Option TS_Point) :
    (run sinF cosF ts setupState).LinestoRender = 12 ∧
    (run sinF cosF ts setupState).OldLinestoRender = 12 ∧
    ∀ i, i < 12 →
      (loop sinF cosF a (run sinF cosF ts setupState)).2[12 + i]? =
        some ⟨((tick sinF cosF a (run sinF cosF ts setupState)).Render.getD i Line2d.zero).p0.x,
          ((tick sinF cosF a (run sinF cosF ts setupState)).Render.getD i Line2d.zero).p0.y,
          ((tick sinF cosF a (run sinF cosF ts setupState)).Render.getD i Line2d.zero).p1.x,
          ((tick sinF cosF a (run sinF cosF ts setupState)).Render.getD i Line2d.zero).p1.y,
          edgeColor i⟩ ∧
      (loop sinF cosF b (tick sinF cosF a (run sinF cosF ts setupState))).2[i]? =
        some ⟨((tick sinF cosF a (run sinF cosF ts setupState)).Render.getD i Line2d.zero).p0.x,
          ((tick sinF cosF a (run sinF cosF ts setupState)).Render.getD i Line2d.zero).p0.y,
          ((tick sinF cosF a (run sinF cosF ts setupState)).Render.getD i Line2d.zero).p1.x,
          ((tick sinF cosF a (run sinF cosF ts setupState)).Render.getD i Line2d.zero).p1.y,
          Color.TFT_BLACK⟩ ∧
      edgeColor i ≠ Color.TFT_BLACK := by
  obtain ⟨n0, o0, r0, q0, _⟩ := run_sizes sinF cosF ts setupState setupState_sizes
  generalize run sinF cosF ts setupState = s at *
  obtain ⟨r1, q1, _, n1, o1⟩ := tick_sizes sinF cosF a s
  have e12 : (12 : Int).toNat = 12 := rfl
  refine ⟨n0, o0, fun i hi => ⟨?_, ?_, ?_⟩⟩
  · rw [loop_calls, n0, o0, e12]
    rw [List.getElem?_append_right (by simp)]
    simp only [List.length_map, List.length_range, List.getElem?_map]
    rw [show 12 + i - 12 = i from by omega, List.getElem?_range hi]
    rfl
  · rw [loop_calls, n1, o1, n0, e12]
    rw [List.getElem?_append_left (by simpa using hi)]
    simp only [List.getElem?_map]
    rw [List.getElem?_range hi]
    have h2 := (tick_arrays sinF cosF b (tick sinF cosF a s) i).2
    rw [n1, n0, q1, q0, if_pos ⟨hi, by omega⟩] at h2
    simp only [Option.map_some', h2]
  · unfold edgeColor
    split
    · decide
    · split <;> decide

/-- Truncation stays between integer bounds of its argument. -/
theorem cTrunc_bounds (q : K) (a b : Int) (ha : (a : K) ≤ q) (hb : q ≤ (b : K)) :
    a ≤ cTrunc q ∧ cTrunc q ≤ b := by
  unfold cTrunc
  split
  · constructor
    · exact Int.le_floor.mpr ha
    · have h := Int.floor_le q
      have : ((⌊q⌋ : Int) : K) ≤ (b : K) := le_trans h hb
      exact_mod_cast this
  · constructor
    · have h := Int.le_ceil q
      have : (a : K) ≤ ((⌈q⌉ : Int) : K) := le_trans ha h
      exact_mod_cast this
    · exact Int.ceil_le.mpr hb

/-- A row of a matrix with entries in `[-1, 1]` maps a vertex with
coordinates in `[-50, 50]` into `[-150, 150]`, also after truncation. -/
theorem row_bounds (p : Point3d) (hp : inCube p) (m1 m2 m3 : K)
    (h1 : |m1| ≤ 1) (h2 : |m2| ≤ 1) (h3 : |m3| ≤ 1) :
    -150 ≤ cTrunc ((p.x : K) * m1 + (p.y : K) * m2 + (p.z : K) * m3) ∧
    cTrunc ((p.x : K) * m1 + (p.y : K) * m2 + (p.z : K) * m3) ≤ 150 := by
  obtain ⟨hx, hy, hz⟩ := hp
  have cx : |(p.x : K)| ≤ 50 := by
    rw [← Int.cast_abs]
    exact_mod_cast hx
  have cy : |(p.y : K)| ≤ 50 := by
    rw [← Int.cast_abs]
    exact_mod_cast hy
  have cz : |(p.z : K)| ≤ 50 := by
    rw [← Int.cast_abs]
    exact_mod_cast hz
  have t1 : |(p.x : K) * m1| ≤ 50 := by
    rw [abs_mul]
    calc |(p.x : K)| * |m1| ≤ 50 * 1 :=
          mul_le_mul cx h1 (abs_nonneg _) (by norm_num)
      _ = 50 := by norm_num
  have t2 : |(p.y : K) * m2| ≤ 50 := by
    rw [abs_mul]
    calc |(p.y : K)| * |m2| ≤ 50 * 1 :=
          mul_le_mul cy h2 (abs_nonneg _) (by norm_num)
      _ = 50 := by norm_num
  have t3 : |(p.z : K) * m3| ≤ 50 := by
    rw [abs_mul]
    calc |(p.z : K)| * |m3| ≤ 50 * 1 :=
          mul_le_mul cz h3 (abs_nonneg _) (by norm_num)
      _ = 50 := by norm_num
  obtain ⟨a1, b1⟩ := abs_le.mp t1
  obtain ⟨a2, b2⟩ := abs_le.mp t2
  obtain ⟨a3, b3⟩ := abs_le.mp t3
  apply cTrunc_bounds
  · push_cast
    linarith
  · push_cast
    linarith

/-- The rotated coordinates of a cube vertex under a bounded matrix. -/
theorem rotate_bounds (s : State K) (hm : matBounded s) (p : Point3d) (hp : inCube p) :
    (-150 ≤ (rotate s p).1 ∧ (rotate s p).1 ≤ 150) ∧
    (-150 ≤ (rotate s p).2.1 ∧ (rotate s p).2.1 ≤ 150) ∧
    (-150 ≤ (rotate s p).2.2 ∧ (rotate s p).2.2 ≤ 150) := by
  obtain ⟨h1, h2, h3, h4, h5, h6, h7, h8, h9⟩ := hm
  exact ⟨row_bounds p hp _ _ _ h1 h2 h3, row_bounds p hp _ _ _ h4 h5 h6,
    row_bounds p hp _ _ _ h7 h8 h9⟩

/-- The depth test in terms of the integer `zv - Zoff`. -/
theorem zvt_lt_iff (s : State K) (p : Point3d) :
    zvt s p < -5 ↔ (rotate s p).2.2 - s.Zoff ≤ -6 := by
  unfold zvt
  constructor
  · intro h
    have h' : (((rotate s p).2.2 - s.Zoff : Int) : K) < ((-5 : Int) : K) := by
      push_cast at h ⊢
      exact h
    have := Int.cast_lt.mp h'
    omega
  · intro h
    have h' : (((rotate s p).2.2 - s.Zoff : Int) : K) ≤ ((-6 : Int) : K) :=
      Int.cast_le.mpr h
    push_cast at h' ⊢
    linarith

/-- A cube vertex passes the depth test under a bounded matrix as soon as
the camera distance is at least 156. -/
theorem depth_pass (s : State K) (hm : matBounded s) (p : Point3d) (hp : inCube p)
    (hz : 156 ≤ s.Zoff) : zvt s p < -5 := by
  rw [zvt_lt_iff]
  have := (rotate_bounds s hm p hp).2.2
  omega

/-- The matrix `SetVars` builds from functions bounded by 1 is bounded. -/
theorem camState_matBounded (sinF cosF : K → K) (hs : ∀ a, |sinF a| ≤ 1)
    (hc : ∀ a, |cosF a| ≤ 1) (touch : Option TS_Point) (s : State K) :
    matBounded (camState sinF cosF touch s) := by
  obtain ⟨z, i, hz⟩ := loopZoom_frame (SetVars sinF cosF (loopTouch touch s))
  unfold camState
  rw [hz]
  have mul1 : ∀ a b : K, |a| ≤ 1 → |b| ≤ 1 → |a * b| ≤ 1 := by
    intro a b ha hb
    rw [abs_mul]
    calc |a| * |b| ≤ 1 * 1 := mul_le_mul ha hb (abs_nonneg _) (by norm_num)
      _ = 1 := by norm_num
  simp only [matBounded, SetVars, abs_neg, abs_zero]
  exact ⟨hc _, by norm_num, hs _, mul1 _ _ (hs _) (hs _), hc _, mul1 _ _ (hc _) (hs _),
    mul1 _ _ (hs _) (hc _), hs _, mul1 _ _ (hc _) (hc _)⟩

/-- The perspective term `256 * (xv / zvt)` for `|xv| ≤ 150` and a depth of
at most `-D`: it is bounded by any integer `B` with `256 * 150 ≤ B * D`. -/
theorem persp_abs (xv : Int) (hx : -150 ≤ xv ∧ xv ≤ 150) (z : K) (D B : Int) (hD : 0 < D)
    (hz : z ≤ -(D : K)) (hB : 256 * 150 ≤ B * D) :
    |256 * ((xv : K) / z)| ≤ (B : K) := by
  have hDK : (0 : K) < (D : K) := by exact_mod_cast hD
  have hzabs : (D : K) ≤ |z| := by
    rw [abs_of_neg (by linarith)]
    linarith
  have hxabs : |(xv : K)| ≤ 150 := by
    rw [abs_le]
    constructor
    · have : ((-150 : Int) : K) ≤ (xv : K) := Int.cast_le.mpr hx.1
      push_cast at this
      linarith
    · have : (xv : K) ≤ ((150 : Int) : K) := Int.cast_le.mpr hx.2
      push_cast at this
      linarith
  have h1 : |(xv : K)| / |z| ≤ 150 / (D : K) :=
    div_le_div₀ (by norm_num) hxabs hDK hzabs
  have h2 : (256 : K) * 150 ≤ (B : K) * (D : K) := by exact_mod_cast hB
  have h3 : (256 : K) * (150 / (D : K)) ≤ (B : K) := by
    rw [← mul_div_assoc, div_le_iff₀ hDK]
    exact h2
  rw [abs_mul, abs_div, abs_of_pos (by norm_num : (0 : K) < 256)]
  calc (256 : K) * (|(xv : K)| / |z|) ≤ 256 * (150 / (D : K)) :=
        mul_le_mul_of_nonneg_left h1 (by norm_num)
    _ ≤ (B : K) := h3

/-- A screen coordinate `trunc(256 * (xv / zvt) + off)` lies within `B` of
the offset when the perspective term is bounded by `B`. -/
theorem coord_bounds (v : K) (off B : Int) (h : |v| ≤ (B : K)) :
    |cTrunc (v + (off : K)) - off| ≤ B := by
  obtain ⟨h1, h2⟩ := abs_le.mp h
  have hb := cTrunc_bounds (v + (off : K)) (off - B) (off + B)
    (by push_cast; linarith) (by push_cast; linarith)
  rw [abs_le]
  constructor <;> omega

/-- The projected point of a cube vertex under a bounded matrix, at an
integer depth of at most `-D`, lies within `B` of the screen offsets for any
`B` with `256 * 150 ≤ B * D`. -/
theorem projectPoint_bounds (s : State K) (hm : matBounded s) (p : Point3d) (hp : inCube p)
    (D B : Int) (hD : 0 < D) (hz : (rotate s p).2.2 - s.Zoff ≤ -D)
    (hB : 256 * 150 ≤ B * D) :
    |(projectPoint s p).x - s.Xoff| ≤ B ∧ |(projectPoint s p).y - s.Yoff| ≤ B := by
  obtain ⟨hx, hy, _⟩ := rotate_bounds s hm p hp
  have hzK : zvt s p ≤ -(D : K) := by
    unfold zvt
    have : (((rotate s p).2.2 - s.Zoff : Int) : K) ≤ ((-D : Int) : K) := Int.cast_le.mpr hz
    push_cast at this ⊢
    exact this
  exact ⟨coord_bounds _ _ _ (persp_abs _ hx _ D B hD hzK hB),
    coord_bounds _ _ _ (persp_abs _ hy _ D B hD hzK hB)⟩

/-- The edges of the cube have their endpoints in the cube. -/
theorem cubeEdges_inCube : ∀ e ∈ cubeEdges, inCube e.p0 ∧ inCube e.p1 := by
  unfold inCube
  decide

/-- The array `Lines` of the setup state does not depend on the field. -/
theorem setupState_Lines : (setupState : State K).Lines = (cube (boot : State ℚ)).Lines :=
  rfl

/-- Entry `i < 12` of `Lines` in the setup state is an edge of the cube. -/
theorem setupState_edge (i : Nat) (hi : i < 12) :
    (setupState : State K).Lines.getD i Line3d.zero ∈ cubeEdges := by
  rw [setupState_Lines]
  have h : ∀ j, j < 12 → ((cube (boot : State ℚ)).Lines).getD j Line3d.zero ∈ cubeEdges := by
    decide
  exact h i hi

/-- The camera distance `ProcessLine` sees in one call of `loop`. -/
theorem camState_Zoff (sinF cosF : K → K) (touch : Option TS_Point) (s : State K) :
    (camState sinF cosF touch s).Zoff = s.Zoff + s.inc := by
  have h := tick_Zoff sinF cosF touch s
  obtain ⟨R, O, n, hf⟩ := tick_frame sinF cosF touch s
  rw [hf] at h
  exact h

/-- A cube edge in the reference scene (bounded matrix, Zoff = 548, Xoff =
240): both endpoints pass the depth test and the edge `ProcessLine` writes is
not the zero entry. -/
theorem scene_edge (c : State K) (hm : matBounded c) (hz : c.Zoff = 548)
    (hx : c.Xoff = 240) (ret : Line2d) (e : Line3d) (he : e ∈ cubeEdges) :
    zvt c e.p0 < -5 ∧ zvt c e.p1 < -5 ∧
    ProcessLine c ret e = ⟨projectPoint c e.p0, projectPoint c e.p1⟩ ∧
    ProcessLine c ret e ≠ Line2d.zero := by
  obtain ⟨h0, h1⟩ := cubeEdges_inCube e he
  have d0 := depth_pass c hm e.p0 h0 (by omega)
  have d1 := depth_pass c hm e.p1 h1 (by omega)
  have hw : ProcessLine c ret e = ⟨projectPoint c e.p0, projectPoint c e.p1⟩ := by
    rw [ProcessLine_eq, if_pos ⟨d0, d1⟩]
  refine ⟨d0, d1, hw, ?_⟩
  have hb := (projectPoint_bounds c hm e.p0 h0 398 97 (by decide)
    (by have := (rotate_bounds c hm e.p0 h0).2.2; omega) (by decide)).1
  rw [hw]
  intro hzero
  have hx0 : (projectPoint c e.p0).x = 0 := congrArg (fun l => l.p0.x) hzero
  rw [hx0, hx] at hb
  revert hb
  decide

/-- C7. From the setup state (cube model, Xan = Yan = 0, Xoff = 240, Yoff =
160, Zoff = 550, inc = -2, Render all zero) one tick with no touch, with any
C library whose sin and cos are bounded by 1, leaves Xan = 1, Yan = 1 and
Zoff = 548; both endpoints of each of the 12 cube edges pass the depth test
zvt < -5, every Render[i], i < 12, is written by ProcessLine and differs from
the zero entry. The same holds for every matrix with entries in [-1,1] at
Zoff = 548, Xoff = 240. -/
theorem C7_reference_scenario (sinF cosF : K → K) (hs : ∀ a, |sinF a| ≤ 1)
    (hc : ∀ a, |cosF a| ≤ 1) :
    (tick sinF cosF none setupState).Xan = 1 ∧
    (tick sinF cosF none setupState).Yan = 1 ∧
    (tick sinF cosF none setupState).Zoff = 548 ∧
    (∀ i, i < 12 →
      zvt (camState sinF cosF none setupState)
        ((setupState : State K).Lines.getD i Line3d.zero).p0 < -5 ∧
      zvt (camState sinF cosF none setupState)
        ((setupState : State K).Lines.getD i Line3d.zero).p1 < -5 ∧
      (tick sinF cosF none setupState).Render.getD i Line2d.zero =
        ⟨projectPoint (camState sinF cosF none setupState)
            ((setupState : State K).Lines.getD i Line3d.zero).p0,
          projectPoint (camState sinF cosF none setupState)
            ((setupState : State K).Lines.getD i Line3d.zero).p1⟩ ∧
      (tick sinF cosF none setupState).Render.getD i Line2d.zero ≠ Line2d.zero) ∧
    (∀ (c : State K) (ret : Line2d), matBounded c → c.Zoff = 548 → c.Xoff = 240 →
      ∀ e ∈ cubeEdges,
        zvt c e.p0 < -5 ∧ zvt c e.p1 < -5 ∧
        ProcessLine c ret e = ⟨projectPoint c e.p0, projectPoint c e.p1⟩ ∧
        ProcessLine c ret e ≠ Line2d.zero) := by
  refine ⟨?_, ?_, ?_, fun i hi => ?_, fun c ret hm hz hx e he => scene_edge c hm hz hx ret e he⟩
  · rw [tick_Xan]
    rfl
  · rw [tick_Yan]
    rfl
  · rw [tick_Zoff]
    rfl
  · have hm := camState_matBounded sinF cosF hs hc none (setupState : State K)
    have hz : (camState sinF cosF none (setupState : State K)).Zoff = 548 := by
      rw [camState_Zoff]
      rfl
    have hx : (camState sinF cosF none (setupState : State K)).Xoff = 240 :=
      (camState_frame sinF cosF none (setupState : State K)).2.2.2.2.2.1
    have he := setupState_edge (K := K) i hi
    have hr := (tick_arrays sinF cosF none (setupState : State K) i).1
    rw [if_pos ⟨by exact hi, by show i < 20; omega⟩] at hr
    obtain ⟨d0, d1, hw, hne⟩ := scene_edge (camState sinF cosF none (setupState : State K))
      hm hz hx ((setupState : State K).Render.getD i Line2d.zero) _ he
    rw [hr]
    exact ⟨d0, d1, hw, hne⟩

/-- Witness of C7: the C library `sinZero`, `cosZero` is bounded by 1; with
it the tick leaves Xan = 1, Yan = 1, Zoff = 548 and Render[0] is not the zero
entry. -/
theorem C7_reference_scenario_witness :
    (∀ a, |sinZero a| ≤ 1) ∧ (∀ a, |cosZero a| ≤ 1) ∧
    (tick sinZero cosZero none setupState).Xan = 1 ∧
    (tick sinZero cosZero none setupState).Yan = 1 ∧
    (tick sinZero cosZero none setupState).Zoff = 548 ∧
    (tick sinZero cosZero none setupState).Render.getD 0 Line2d.zero ≠ Line2d.zero :=
  have hs : ∀ a, |sinZero a| ≤ 1 := fun _ => by simp [sinZero]
  have hc : ∀ a, |cosZero a| ≤ 1 := fun _ => by simp [cosZero]
  have h := C7_reference_scenario sinZero cosZero hs hc
  ⟨hs, hc, h.1, h.2.1, h.2.2.1, (h.2.2.2.1 0 (by decide)).2.2.2⟩

/-- The function `ProcessLine` writes `*ret` (its result differs from some
`ret`) exactly when both endpoints pass the depth test. -/
theorem ProcessLine_writes_iff (s : State K) (vec : Line3d) :
    (∃ ret, ProcessLine s ret vec ≠ ret) ↔ (zvt s vec.p0 < -5 ∧ zvt s vec.p1 < -5) := by
  constructor
  · rintro ⟨ret, h⟩
    by_contra hn
    rw [ProcessLine_eq, if_neg hn] at h
    exact h rfl
  · intro h
    by_cases hz : (⟨projectPoint s vec.p0, projectPoint s vec.p1⟩ : Line2d) = Line2d.zero
    · refine ⟨⟨⟨1, 0⟩, ⟨0, 0⟩⟩, ?_⟩
      rw [ProcessLine_eq, if_pos h, hz]
      decide
    · refine ⟨Line2d.zero, ?_⟩
      rw [ProcessLine_eq, if_pos h]
      exact hz

/-- C8. Whenever ProcessLine writes *ret, both perspective divisors zvt1 and
zvt2 are the integers zv - Zoff, at most -6 and so not zero, and the value
written is, per endpoint, the truncation of 256*(xv/zvt) + Xoff and of
256*(yv/zvt) + Yoff with xv, yv, zv the truncated rotated coordinates; for
every cube edge and every matrix with entries in [-1,1] each written
coordinate is within 6400 of its offset. -/
theorem C8_projection_bounded (s : State K) (vec : Line3d)
    (h : ∃ ret, ProcessLine s ret vec ≠ ret) :
    (zvt s vec.p0 = (((rotate s vec.p0).2.2 - s.Zoff : Int) : K) ∧
      (rotate s vec.p0).2.2 - s.Zoff ≤ -6 ∧ zvt s vec.p0 ≠ 0) ∧
    (zvt s vec.p1 = (((rotate s vec.p1).2.2 - s.Zoff : Int) : K) ∧
      (rotate s vec.p1).2.2 - s.Zoff ≤ -6 ∧ zvt s vec.p1 ≠ 0) ∧
    (∀ ret, ProcessLine s ret vec =
      ⟨⟨cTrunc (256 * (((rotate s vec.p0).1 : K) / zvt s vec.p0) + (s.Xoff : K)),
        cTrunc (256 * (((rotate s vec.p0).2.1 : K) / zvt s vec.p0) + (s.Yoff : K))⟩,
       ⟨cTrunc (256 * (((rotate s vec.p1).1 : K) / zvt s vec.p1) + (s.Xoff : K)),
        cTrunc (256 * (((rotate s vec.p1).2.1 : K) / zvt s vec.p1) + (s.Yoff : K))⟩⟩) ∧
    (matBounded s → vec ∈ cubeEdges → ∀ ret,
      |(ProcessLine s ret vec).p0.x - s.Xoff| ≤ 6400 ∧
      |(ProcessLine s ret vec).p0.y - s.Yoff| ≤ 6400 ∧
      |(ProcessLine s ret vec).p1.x - s.Xoff| ≤ 6400 ∧
      |(ProcessLine s ret vec).p1.y - s.Yoff| ≤ 6400) := by
  obtain ⟨d0, d1⟩ := (ProcessLine_writes_iff s vec).mp h
  have n0 := (zvt_lt_iff s vec.p0).mp d0
  have n1 := (zvt_lt_iff s vec.p1).mp d1
  have hw : ∀ ret, ProcessLine s ret vec =
      ⟨projectPoint s vec.p0, projectPoint s vec.p1⟩ := by
    intro ret
    rw [ProcessLine_eq, if_pos ⟨d0, d1⟩]
  refine ⟨⟨rfl, n0, ?_⟩, ⟨rfl, n1, ?_⟩, hw, fun hm he ret => ?_⟩
  · intro hz
    rw [hz] at d0
    norm_num at d0
  · intro hz
    rw [hz] at d1
    norm_num at d1
  · obtain ⟨h0, h1⟩ := cubeEdges_inCube vec he
    obtain ⟨a1, a2⟩ := projectPoint_bounds s hm vec.p0 h0 6 6400 (by decide) n0 (by decide)
    obtain ⟨b1, b2⟩ := projectPoint_bounds s hm vec.p1 h1 6 6400 (by decide) n1 (by decide)
    rw [hw ret]
    exact ⟨a1, a2, b1, b2⟩

/-- Witness of C8: in the reference scene after the first tick (matrix of
`sinZero`, `cosZero`, Zoff = 548) `ProcessLine` writes edge 0, whose
coordinates then lie within 6400 of the offsets 240 and 160. -/
theorem C8_projection_bounded_witness :
    (∃ ret, ProcessLine (camState sinZero cosZero none setupState) ret
      ⟨⟨-50, -50, 50⟩, ⟨50, -50, 50⟩⟩ ≠ ret) ∧
    |(ProcessLine (camState sinZero cosZero none setupState) Line2d.zero
      ⟨⟨-50, -50, 50⟩, ⟨50, -50, 50⟩⟩).p0.x - 240| ≤ 6400 ∧
    |(ProcessLine (camState sinZero cosZero none setupState) Line2d.zero
      ⟨⟨-50, -50, 50⟩, ⟨50, -50, 50⟩⟩).p1.y - 160| ≤ 6400 :=
  have hm : matBounded (camState sinZero cosZero none (setupState : State ℚ)) :=
    camState_matBounded sinZero cosZero (fun _ => by simp [sinZero])
      (fun _ => by simp [cosZero]) none setupState
  have he : (⟨⟨-50, -50, 50⟩, ⟨50, -50, 50⟩⟩ : Line3d) ∈ cubeEdges := by decide
  have hex : ∃ ret, ProcessLine (camState sinZero cosZero none setupState) ret
      ⟨⟨-50, -50, 50⟩, ⟨50, -50, 50⟩⟩ ≠ ret :=
    ⟨Line2d.zero, (scene_edge (camState sinZero cosZero none (setupState : State ℚ)) hm
      ((camState_Zoff sinZero cosZero none setupState).trans rfl)
      (camState_frame sinZero cosZero none (setupState : State ℚ)).2.2.2.2.2.1
      Line2d.zero _ he).2.2.2⟩
  have h := C8_projection_bounded (camState sinZero cosZero none (setupState : State ℚ))
    ⟨⟨-50, -50, 50⟩, ⟨50, -50, 50⟩⟩ hex
  have hb := h.2.2.2 hm he Line2d.zero
  ⟨hex, hb.1, hb.2.2.2⟩

/-- C9. After cube() the edge counts are 12 and the model is the 12 edges
Lines[0..11]; all 24 endpoint coordinates are -50 or 50; edges 0..3 have both
endpoints on z = 50, edges 4..7 on z = -50, edges 8..11 join (x, y, 50) to
(x, y, -50); the endpoints of every edge differ in exactly one coordinate and
each of the 8 corners is an endpoint of exactly 3 edges. -/
theorem C9_cube_geometry :
    (cube (boot : State ℚ)).LinestoRender = 12 ∧
    (cube (boot : State ℚ)).OldLinestoRender = 12 ∧
    cubeEdges.length = 12 ∧
    (∀ e ∈ cubeEdges,
      (e.p0.x = -50 ∨ e.p0.x = 50) ∧ (e.p0.y = -50 ∨ e.p0.y = 50) ∧
      (e.p0.z = -50 ∨ e.p0.z = 50) ∧ (e.p1.x = -50 ∨ e.p1.x = 50) ∧
      (e.p1.y = -50 ∨ e.p1.y = 50) ∧ (e.p1.z = -50 ∨ e.p1.z = 50)) ∧
    (∀ i, i < 4 →
      (cubeEdges.getD i Line3d.zero).p0.z = 50 ∧ (cubeEdges.getD i Line3d.zero).p1.z = 50) ∧
    (∀ i, i < 8 → 4 ≤ i →
      (cubeEdges.getD i Line3d.zero).p0.z = -50 ∧
      (cubeEdges.getD i Line3d.zero).p1.z = -50) ∧
    (∀ i, i < 12 → 8 ≤ i →
      (cubeEdges.getD i Line3d.zero).p0.z = 50 ∧
      (cubeEdges.getD i Line3d.zero).p1.z = -50 ∧
      (cubeEdges.getD i Line3d.zero).p0.x = (cubeEdges.getD i Line3d.zero).p1.x ∧
      (cubeEdges.getD i Line3d.zero).p0.y = (cubeEdges.getD i Line3d.zero).p1.y) ∧
    (∀ e ∈ cubeEdges, diffCount e = 1) ∧
    (∀ x ∈ [(-50 : Int), 50], ∀ y ∈ [(-50 : Int), 50], ∀ z ∈ [(-50 : Int), 50],
      degree cubeEdges ⟨x, y, z⟩ = 3) := by
  refine ⟨rfl, rfl, by decide, by decide, by decide, by decide, by decide, by decide,
    by decide⟩

/-- The matrix `SetVars` builds, by rows, for any C library. -/
theorem matOf_SetVars (sinF cosF : K → K) (s : State K) :
    matOf (SetVars sinF cosF s) =
      !![cosF ((s.Yan : K) / s.fact), 0, -sinF ((s.Yan : K) / s.fact);
         sinF ((s.Yan : K) / s.fact) * sinF ((s.Xan : K) / s.fact),
           cosF ((s.Xan : K) / s.fact),
           cosF ((s.Yan : K) / s.fact) * sinF ((s.Xan : K) / s.fact);
         sinF ((s.Yan : K) / s.fact) * cosF ((s.Xan : K) / s.fact),
           -sinF ((s.Xan : K) / s.fact),
           cosF ((s.Yan : K) / s.fact) * cosF ((s.Xan : K) / s.fact)] :=
  rfl

/-- The product of the elementary rotations, X after Y, by rows. -/
theorem rotX_mul_rotY (s2 c2 s1 c1 : K) :
    rotX s2 c2 * rotY s1 c1 =
      !![c1, 0, -s1; s1 * s2, c2, c1 * s2; s1 * c2, -s2, c1 * c2] := by
  ext i j
  fin_cases i <;> fin_cases j <;>
    simp [rotX, rotY, Matrix.mul_apply, Fin.sum_univ_three] <;> ring

/-- The transpose of the elementary rotation about X, by rows. -/
theorem rotX_transpose (sn cs : K) :
    (rotX sn cs).transpose = !![1, 0, 0; 0, cs, -sn; 0, sn, cs] := by
  ext i j
  fin_cases i <;> fin_cases j <;> rfl

/-- The transpose of the elementary rotation about Y, by rows. -/
theorem rotY_transpose (sn cs : K) :
    (rotY sn cs).transpose = !![cs, 0, sn; 0, 1, 0; -sn, 0, cs] := by
  ext i j
  fin_cases i <;> fin_cases j <;> rfl

/-- An elementary rotation about the X axis is orthogonal with determinant 1. -/
theorem rotX_orthogonal (sn cs : K) (h : sn ^ 2 + cs ^ 2 = 1) :
    rotX sn cs * (rotX sn cs).transpose = 1 ∧ (rotX sn cs).det = 1 := by
  constructor
  · rw [rotX_transpose]
    ext i j
    fin_cases i <;> fin_cases j <;>
      simp [rotX, Matrix.mul_apply, Fin.sum_univ_three, Matrix.one_apply,
        Matrix.vecHead, Matrix.vecTail] <;>
      linarith
  · simp [rotX, Matrix.det_fin_three]
    linear_combination h

/-- An elementary rotation about the Y axis is orthogonal with determinant 1. -/
theorem rotY_orthogonal (sn cs : K) (h : sn ^ 2 + cs ^ 2 = 1) :
    rotY sn cs * (rotY sn cs).transpose = 1 ∧ (rotY sn cs).det = 1 := by
  constructor
  · rw [rotY_transpose]
    ext i j
    fin_cases i <;> fin_cases j <;>
      simp [rotY, Matrix.mul_apply, Fin.sum_univ_three, Matrix.one_apply,
        Matrix.vecHead, Matrix.vecTail] <;>
      linarith
  · simp [rotY, Matrix.det_fin_three]
    linear_combination h

/-- The product of elementary rotations, X after Y, is orthogonal with
determinant 1. -/
theorem rotX_mul_rotY_orthogonal (s2 c2 s1 c1 : K) (h2 : s2 ^ 2 + c2 ^ 2 = 1)
    (h1 : s1 ^ 2 + c1 ^ 2 = 1) :
    (rotX s2 c2 * rotY s1 c1) * (rotX s2 c2 * rotY s1 c1).transpose = 1 ∧
    (rotX s2 c2 * rotY s1 c1).transpose * (rotX s2 c2 * rotY s1 c1) = 1 ∧
    (rotX s2 c2 * rotY s1 c1).det = 1 := by
  obtain ⟨ox, dx⟩ := rotX_orthogonal s2 c2 h2
  obtain ⟨oy, dy⟩ := rotY_orthogonal s1 c1 h1
  have o : (rotX s2 c2 * rotY s1 c1) * (rotX s2 c2 * rotY s1 c1).transpose = 1 := by
    rw [Matrix.transpose_mul, Matrix.mul_assoc, ← Matrix.mul_assoc (rotY s1 c1), oy,
      Matrix.one_mul, ox]
  refine ⟨o, Matrix.mul_eq_one_comm.mp o, ?_⟩
  rw [Matrix.det_mul, dx, dy, one_mul]

/-- C10. Over the reals, for every integer angle pair Xan, Yan (in or out of
[0,360)) and every conversion factor, the matrix SetVars builds has rows
(cosY, 0, -sinY), (sinY*sinX, cosX, cosY*sinX), (sinY*cosX, -sinX, cosY*cosX)
at X = Xan/fact, Y = Yan/fact; it is the product rotX(X) * rotY(Y) of the
elementary rotation about the X axis applied after the one about the Y axis
(both in the sketch's sense of rotation), and it is orthogonal with
determinant 1. -/
theorem C10_SetVars_rotation (s : State ℝ) :
    matOf (SetVars Real.sin Real.cos s) =
      !![Real.cos ((s.Yan : ℝ) / s.fact), 0, -Real.sin ((s.Yan : ℝ) / s.fact);
         Real.sin ((s.Yan : ℝ) / s.fact) * Real.sin ((s.Xan : ℝ) / s.fact),
           Real.cos ((s.Xan : ℝ) / s.fact),
           Real.cos ((s.Yan : ℝ) / s.fact) * Real.sin ((s.Xan : ℝ) / s.fact);
         Real.sin ((s.Yan : ℝ) / s.fact) * Real.cos ((s.Xan : ℝ) / s.fact),
           -Real.sin ((s.Xan : ℝ) / s.fact),
           Real.cos ((s.Yan : ℝ) / s.fact) * Real.cos ((s.Xan : ℝ) / s.fact)] ∧
    matOf (SetVars Real.sin Real.cos s) =
      rotX (Real.sin ((s.Xan : ℝ) / s.fact)) (Real.cos ((s.Xan : ℝ) / s.fact)) *
        rotY (Real.sin ((s.Yan : ℝ) / s.fact)) (Real.cos ((s.Yan : ℝ) / s.fact)) ∧
    matOf (SetVars Real.sin Real.cos s) * (matOf (SetVars Real.sin Real.cos s)).transpose
      = 1 ∧
    (matOf (SetVars Real.sin Real.cos s)).transpose * matOf (SetVars Real.sin Real.cos s)
      = 1 ∧
    (matOf (SetVars Real.sin Real.cos s)).det = 1 := by
  have hp : matOf (SetVars Real.sin Real.cos s) =
      rotX (Real.sin ((s.Xan : ℝ) / s.fact)) (Real.cos ((s.Xan : ℝ) / s.fact)) *
        rotY (Real.sin ((s.Yan : ℝ) / s.fact)) (Real.cos ((s.Yan : ℝ) / s.fact)) := by
    rw [rotX_mul_rotY]
    rfl
  obtain ⟨o1, o2, d⟩ := rotX_mul_rotY_orthogonal
    (Real.sin ((s.Xan : ℝ) / s.fact)) (Real.cos ((s.Xan : ℝ) / s.fact))
    (Real.sin ((s.Yan : ℝ) / s.fact)) (Real.cos ((s.Yan : ℝ) / s.fact))
    (Real.sin_sq_add_cos_sq _) (Real.sin_sq_add_cos_sq _)
  refine ⟨rfl, hp, ?_, ?_, ?_⟩
  · rw [hp]
    exact o1
  · rw [hp]
    exact o2
  · rw [hp]
    exact d

/-- C11. In every call of loop from a state reachable from the setup state,
the draw of edge index i < 12 (call number 12 + i) has the colour
edgeColor i, which depends on i alone; over the 12 cube edges it is TFT_RED
exactly for i in 0..3, the edges with both endpoints on z = 50, TFT_BLUE
exactly for i in 4..7, the edges with both endpoints on z = -50, and
TFT_GREEN exactly for i in 8..11, the edges joining z = 50 to z = -50: three
bands of 12 / 3 = 4 edges. -/
theorem C11_edge_colouring (sinF cosF : K → K) (ts : List (Option TS_Point))
    (a : Option TS_Point) :
    (∀ i, i < 12 →
      Option.map DrawCall.color ((loop sinF cosF a (run sinF cosF ts setupState)).2[12 + i]?)
        = some (edgeColor i)) ∧
    (12 / 3 = 4) ∧
    (∀ i, i < 12 →
      (edgeColor i = Color.TFT_RED ↔ i < 4) ∧
      (edgeColor i = Color.TFT_RED ↔
        (cubeEdges.getD i Line3d.zero).p0.z = 50 ∧
        (cubeEdges.getD i Line3d.zero).p1.z = 50) ∧
      (edgeColor i = Color.TFT_BLUE ↔ 4 ≤ i ∧ i < 8) ∧
      (edgeColor i = Color.TFT_BLUE ↔
        (cubeEdges.getD i Line3d.zero).p0.z = -50 ∧
        (cubeEdges.getD i Line3d.zero).p1.z = -50) ∧
      (edgeColor i = Color.TFT_GREEN ↔ 8 ≤ i) ∧
      (edgeColor i = Color.TFT_GREEN ↔
        (cubeEdges.getD i Line3d.zero).p0.z = 50 ∧
        (cubeEdges.getD i Line3d.zero).p1.z = -50)) ∧
    (∀ i, i < 12 →
      (run sinF cosF ts setupState).Lines.getD i Line3d.zero
        = cubeEdges.getD i Line3d.zero) := by
  obtain ⟨n0, o0, _, _, hL⟩ := run_sizes sinF cosF ts setupState setupState_sizes
  have e12 : (12 : Int).toNat = 12 := rfl
  refine ⟨fun i hi => ?_, by decide, by decide, fun i hi => ?_⟩
  · rw [loop_calls, n0, o0, e12]
    rw [List.getElem?_append_right (by simp)]
    simp only [List.length_map, List.length_range, List.getElem?_map]
    rw [show 12 + i - 12 = i from by omega, List.getElem?_range hi]
    rfl
  · rw [hL, setupState_Lines]
    have h : ∀ j, j < 12 →
        ((cube (boot : State ℚ)).Lines).getD j Line3d.zero = cubeEdges.getD j Line3d.zero := by
      decide
    exact h i hi

/-- The states of the zoom oscillation reachable from the setup values
`Zoff = 550, inc = -2`: the start itself, a descent, or an ascent. -/
theorem zoomStep_inv550 (z i : Int)
    (h : (i = -2 ∧ z = 550) ∨ (i = -1 ∧ 160 ≤ z ∧ z ≤ 548) ∨ (i = 1 ∧ 159 ≤ z ∧ z ≤ 500)) :
    ((zoomStep (z, i)).2 = -1 ∧ 160 ≤ (zoomStep (z, i)).1 ∧ (zoomStep (z, i)).1 ≤ 548) ∨
      ((zoomStep (z, i)).2 = 1 ∧ 159 ≤ (zoomStep (z, i)).1 ∧ (zoomStep (z, i)).1 ≤ 500) := by
  simp only [zoomStep]
  split
  · omega
  · split <;> omega

/-- After at least one step from `Zoff = 550, inc = -2` the zoom pair is on
a descent with `inc = -1` or on an ascent with `inc = 1`. -/
theorem zoomStep_iterate_inv550 (n : Nat) :
    ((zoomStep^[n + 1] (550, -2)).2 = -1 ∧ 160 ≤ (zoomStep^[n + 1] (550, -2)).1 ∧
        (zoomStep^[n + 1] (550, -2)).1 ≤ 548) ∨
      ((zoomStep^[n + 1] (550, -2)).2 = 1 ∧ 159 ≤ (zoomStep^[n + 1] (550, -2)).1 ∧
        (zoomStep^[n + 1] (550, -2)).1 ≤ 500) := by
  induction n with
  | zero => exact zoomStep_inv550 550 (-2) (Or.inl ⟨rfl, rfl⟩)
  | succ n ih =>
    rw [Function.iterate_succ_apply']
    exact zoomStep_inv550 _ _ (Or.inr ih)

/-- The zoom pair of the setup state. -/
theorem setupState_zoom :
    ((setupState : State K).Zoff, (setupState : State K).inc) = (550, -2) := rfl

set_option maxRecDepth 100000 in
/-- The first descent from the setup values, 390 steps, ends below 160. -/
theorem zoomStep_iterate_390 : zoomStep^[390] (550, -2) = (159, 1) := by
  decide

set_option maxRecDepth 100000 in
/-- The ascent from 159, 342 steps, ends above 500. -/
theorem zoomStep_iterate_342 : zoomStep^[342] (159, 1) = (501, -1) := by
  decide

/-- The descent from the setup values followed by the ascent: 732 steps. -/
theorem zoomStep_iterate_732 : zoomStep^[732] (550, -2) = (501, -1) := by
  have e : (732 : Nat) = 342 + 390 := rfl
  rw [e, Function.iterate_add_apply, zoomStep_iterate_390]
  exact zoomStep_iterate_342

/-- C12. Starting from the setup state (Zoff = 550, inc = -2), after every
sequence of n >= 1 touched or untouched ticks 159 <= Zoff <= 548 and inc is
-1 or +1, with inc = -1 whenever Zoff > 500 and inc = +1 whenever Zoff < 160;
the values 159 (after 390 ticks) and 501 (after 732 ticks, on the way up) are
reached, one step past the thresholds 160 and 500. -/
theorem C12_reachable_camera_range (sinF cosF : K → K) (ts : List (Option TS_Point))
    (hn : 1 ≤ ts.length) :
    159 ≤ (run sinF cosF ts setupState).Zoff ∧
    (run sinF cosF ts setupState).Zoff ≤ 548 ∧
    ((run sinF cosF ts setupState).inc = -1 ∨ (run sinF cosF ts setupState).inc = 1) ∧
    ((run sinF cosF ts setupState).Zoff > 500 → (run sinF cosF ts setupState).inc = -1) ∧
    ((run sinF cosF ts setupState).Zoff < 160 → (run sinF cosF ts setupState).inc = 1) ∧
    (run sinF cosF (List.replicate 390 none) setupState).Zoff = 159 ∧
    (run sinF cosF (List.replicate 732 none) setupState).Zoff = 501 := by
  obtain ⟨n, hlen⟩ : ∃ n, ts.length = n + 1 := ⟨ts.length - 1, by omega⟩
  have hz := zoom_run sinF cosF ts (setupState : State K)
  rw [setupState_zoom, hlen] at hz
  have inv := zoomStep_iterate_inv550 n
  rw [← hz] at inv
  simp only at inv
  have h159 := (run_idle_zoom sinF cosF 390 (setupState : State K) 159 1
    zoomStep_iterate_390).1
  have h501 := (run_idle_zoom sinF cosF 732 (setupState : State K) 501 (-1)
    zoomStep_iterate_732).1
  refine ⟨by omega, by omega, by omega, by omega, by omega, h159, h501⟩

/-- Witness of C12: after the two ticks touch (3,4), no touch from the setup
state, Zoff lies in [159, 548] and inc is -1 or 1. -/
theorem C12_reachable_camera_range_witness :
    1 ≤ ([some ⟨3, 4⟩, none] : List (Option TS_Point)).length ∧
    159 ≤ (run sinZero cosZero [some ⟨3, 4⟩, none] setupState).Zoff ∧
    (run sinZero cosZero [some ⟨3, 4⟩, none] setupState).Zoff ≤ 548 ∧
    ((run sinZero cosZero [some ⟨3, 4⟩, none] setupState).inc = -1 ∨
      (run sinZero cosZero [some ⟨3, 4⟩, none] setupState).inc = 1) :=
  have h := C12_reachable_camera_range sinZero cosZero [some ⟨3, 4⟩, none] (by decide)
  ⟨by decide, h.1, h.2.1, h.2.2.1⟩

/-- The camera distance is at least 159 in every state reachable from the
setup state, and so is the one of the following call of `loop`. -/
theorem reachable_Zoff_ge (sinF cosF : K → K) (ts : List (Option TS_Point))
    (t : Option TS_Point) :
    159 ≤ (run sinF cosF ts setupState).Zoff ∧
    159 ≤ (camState sinF cosF t (run sinF cosF ts setupState)).Zoff := by
  have hz := zoom_run sinF cosF ts (setupState : State K)
  rw [setupState_zoom] at hz
  have hc : (camState sinF cosF t (run sinF cosF ts setupState)).Zoff
      = (zoomStep^[ts.length + 1] (550, -2)).1 := by
    rw [camState_Zoff, Function.iterate_succ_apply', ← hz]
    rfl
  have inv1 := zoomStep_iterate_inv550 ts.length
  rw [← hc] at inv1
  refine ⟨?_, by omega⟩
  rcases Nat.eq_zero_or_pos ts.length with h0 | hpos
  · have hnil : ts = [] := List.length_eq_zero.mp h0
    subst hnil
    show (159 : Int) ≤ 550
    decide
  · obtain ⟨n, hlen⟩ : ∃ n, ts.length = n + 1 := ⟨ts.length - 1, by omega⟩
    rw [hlen] at hz
    have inv := zoomStep_iterate_inv550 n
    rw [← hz] at inv
    simp only at inv
    omega

/-- C13. In every state reachable from the setup state by any sequence of
touched or untouched ticks, with any C library whose sin and cos are bounded
by 1, both endpoints of each of the 12 cube edges pass the depth test
zvt < -5 in the following call of loop, so every Render[i], i < 12, is
recomputed by ProcessLine on every tick; the same holds for every matrix
with entries in [-1,1] at the camera distance of any reachable state. -/
theorem C13_gating_unreachable (sinF cosF : K → K) (hs : ∀ a, |sinF a| ≤ 1)
    (hc : ∀ a, |cosF a| ≤ 1) (ts : List (Option TS_Point)) (t : Option TS_Point) :
    (∀ i, i < 12 →
      zvt (camState sinF cosF t (run sinF cosF ts setupState))
        ((run sinF cosF ts setupState).Lines.getD i Line3d.zero).p0 < -5 ∧
      zvt (camState sinF cosF t (run sinF cosF ts setupState))
        ((run sinF cosF ts setupState).Lines.getD i Line3d.zero).p1 < -5 ∧
      (tick sinF cosF t (run sinF cosF ts setupState)).Render.getD i Line2d.zero =
        ⟨projectPoint (camState sinF cosF t (run sinF cosF ts setupState))
            ((run sinF cosF ts setupState).Lines.getD i Line3d.zero).p0,
          projectPoint (camState sinF cosF t (run sinF cosF ts setupState))
            ((run sinF cosF ts setupState).Lines.getD i Line3d.zero).p1⟩) ∧
    (∀ (c : State K) (ret : Line2d), matBounded c →
      c.Zoff = (run sinF cosF ts setupState).Zoff →
      ∀ e ∈ cubeEdges,
        zvt c e.p0 < -5 ∧ zvt c e.p1 < -5 ∧
        ProcessLine c ret e = ⟨projectPoint c e.p0, projectPoint c e.p1⟩) := by
  obtain ⟨g1, g2⟩ := reachable_Zoff_ge sinF cosF ts t
  obtain ⟨n0, _, r0, _, hL⟩ := run_sizes sinF cosF ts setupState setupState_sizes
  have gen : ∀ (c : State K) (ret : Line2d), matBounded c → 159 ≤ c.Zoff →
      ∀ e ∈ cubeEdges,
        zvt c e.p0 < -5 ∧ zvt c e.p1 < -5 ∧
        ProcessLine c ret e = ⟨projectPoint c e.p0, projectPoint c e.p1⟩ := by
    intro c ret hm hz e he
    obtain ⟨h0, h1⟩ := cubeEdges_inCube e he
    have d0 := depth_pass c hm e.p0 h0 (by omega)
    have d1 := depth_pass c hm e.p1 h1 (by omega)
    refine ⟨d0, d1, ?_⟩
    rw [ProcessLine_eq, if_pos ⟨d0, d1⟩]
  refine ⟨fun i hi => ?_, fun c ret hm hz e he => gen c ret hm (by omega) e he⟩
  have hm := camState_matBounded sinF cosF hs hc t (run sinF cosF ts setupState)
  have he : (run sinF cosF ts setupState).Lines.getD i Line3d.zero ∈ cubeEdges := by
    rw [hL]
    exact setupState_edge i hi
  have hr := (tick_arrays sinF cosF t (run sinF cosF ts setupState) i).1
  rw [n0, r0, if_pos ⟨by exact hi, by omega⟩] at hr
  obtain ⟨d0, d1, hw⟩ := gen (camState sinF cosF t (run sinF cosF ts setupState))
    ((run sinF cosF ts setupState).Render.getD i Line2d.zero) hm g2 _ he
  rw [hr]
  exact ⟨d0, d1, hw⟩

/-- Witness of C13: with `sinZero`, `cosZero`, after one tick without touch
from the setup state the next call of loop, touched at (1,1), passes both
endpoints of edge 0 through the depth test. -/
theorem C13_gating_unreachable_witness :
    (∀ a, |sinZero a| ≤ 1) ∧ (∀ a, |cosZero a| ≤ 1) ∧
    zvt (camState sinZero cosZero (some ⟨1, 1⟩) (run sinZero cosZero [none] setupState))
      ((run sinZero cosZero [none] setupState).Lines.getD 0 Line3d.zero).p0 < -5 ∧
    zvt (camState sinZero cosZero (some ⟨1, 1⟩) (run sinZero cosZero [none] setupState))
      ((run sinZero cosZero [none] setupState).Lines.getD 0 Line3d.zero).p1 < -5 :=
  have hs : ∀ a, |sinZero a| ≤ 1 := fun _ => by simp [sinZero]
  have hc : ∀ a, |cosZero a| ≤ 1 := fun _ => by simp [cosZero]
  have h := (C13_gating_unreachable sinZero cosZero hs hc [none] (some ⟨1, 1⟩)).1 0
    (by decide)
  ⟨hs, hc, h.1, h.2.1⟩

/-- The angle a drag step stores, `trunc(a + d * 0.5)`: it is the truncation
of `a + d / 2`; it is `a + floor(d / 2)` when `a + d / 2` is not negative; for
`a ≥ 1` a delta of 1 leaves `a` and a delta of -1 gives `a - 1`. -/
theorem drag_step (a d : Int) :
    cTrunc ((a : K) + (d : K) * 0.5) = cTrunc ((a : K) + (d : K) / 2) ∧
    (0 ≤ (a : K) + (d : K) / 2 → cTrunc ((a : K) + (d : K) * 0.5) = a + d / 2) ∧
    (1 ≤ a → d = 1 → cTrunc ((a : K) + (d : K) * 0.5) = a) ∧
    (1 ≤ a → d = -1 → cTrunc ((a : K) + (d : K) * 0.5) = a - 1) := by
  have e : (a : K) + (d : K) * 0.5 = (a : K) + (d : K) / 2 := by
    norm_num
    ring
  obtain ⟨hp, _⟩ := tdiv_two_bounds (2 * a + d)
  have nonneg : 0 ≤ 2 * a + d → (2 * a + d).tdiv 2 = a + d / 2 := by
    intro h
    have := hp h
    omega
  refine ⟨by rw [e], fun h => ?_, fun ha hd => ?_, fun ha hd => ?_⟩
  · rw [cTrunc_half]
    apply nonneg
    have h2 : (0 : K) ≤ 2 * (a : K) + (d : K) := by linarith
    exact_mod_cast h2
  · rw [cTrunc_half, nonneg (by omega)]
    omega
  · rw [cTrunc_half, nonneg (by omega)]
    omega

/-- C14. Xan and Yan are integers, so a Dragging tick with delta dx sets Xan
to the truncation toward zero of Xan + dx/2; whenever Xan + dx/2 >= 0 this is
Xan + floor(dx/2). Hence for Xan >= 1 a delta of +1 leaves Xan unchanged and
a delta of -1 decreases it by 1, and dragging by +1 then by -1 from
Xan = 10 ends at 9. The same holds for Yan with dy. -/
theorem C14_drag_truncation (sinF cosF : K → K) (s : State K) (p : TS_Point)
    (h : s.touchActive = true) :
    ((tick sinF cosF (some p) s).Xan
        = cTrunc ((s.Xan : K) + ((p.x - s.lastTouchX : Int) : K) / 2) ∧
      (0 ≤ (s.Xan : K) + ((p.x - s.lastTouchX : Int) : K) / 2 →
        (tick sinF cosF (some p) s).Xan = s.Xan + (p.x - s.lastTouchX) / 2) ∧
      (1 ≤ s.Xan → p.x - s.lastTouchX = 1 → (tick sinF cosF (some p) s).Xan = s.Xan) ∧
      (1 ≤ s.Xan → p.x - s.lastTouchX = -1 →
        (tick sinF cosF (some p) s).Xan = s.Xan - 1)) ∧
    ((tick sinF cosF (some p) s).Yan
        = cTrunc ((s.Yan : K) + ((p.y - s.lastTouchY : Int) : K) / 2) ∧
      (0 ≤ (s.Yan : K) + ((p.y - s.lastTouchY : Int) : K) / 2 →
        (tick sinF cosF (some p) s).Yan = s.Yan + (p.y - s.lastTouchY) / 2) ∧
      (1 ≤ s.Yan → p.y - s.lastTouchY = 1 → (tick sinF cosF (some p) s).Yan = s.Yan) ∧
      (1 ≤ s.Yan → p.y - s.lastTouchY = -1 →
        (tick sinF cosF (some p) s).Yan = s.Yan - 1)) ∧
    orient (run sinF cosF [some ⟨1, 1⟩, some ⟨0, 0⟩]
      { (setupState : State K) with
        Xan := 10, Yan := 10, touchActive := true, lastTouchX := 0, lastTouchY := 0 })
      = ⟨9, 9, true, 0, 0⟩ := by
  obtain ⟨hx, hy⟩ := tick_drag_angles sinF cosF s p h
  obtain ⟨x1, x2, x3, x4⟩ := drag_step (K := K) s.Xan (p.x - s.lastTouchX)
  obtain ⟨y1, y2, y3, y4⟩ := drag_step (K := K) s.Yan (p.y - s.lastTouchY)
  rw [hx, hy]
  refine ⟨⟨x1, x2, x3, x4⟩, ⟨y1, y2, y3, y4⟩, ?_⟩
  rw [orient_run]
  have e : orient ({ (setupState : State K) with
      Xan := 10, Yan := 10, touchActive := true, lastTouchX := 0, lastTouchY := 0 })
      = ⟨10, 10, true, 0, 0⟩ := rfl
  rw [e]
  decide

/-- Witness of C14: with the anchor at (0,0) and Xan = Yan = 10, the sample
(1,-1) leaves Xan = 10 and sets Yan to 9. -/
theorem C14_drag_truncation_witness :
    ({ (setupState : State ℚ) with
      Xan := 10, Yan := 10, touchActive := true, lastTouchX := 0,
      lastTouchY := 0 }).touchActive = true ∧
    (tick sinZero cosZero (some ⟨1, -1⟩)
      { (setupState : State ℚ) with
        Xan := 10, Yan := 10, touchActive := true, lastTouchX := 0,
        lastTouchY := 0 }).Xan = 10 ∧
    (tick sinZero cosZero (some ⟨1, -1⟩)
      { (setupState : State ℚ) with
        Xan := 10, Yan := 10, touchActive := true, lastTouchX := 0,
        lastTouchY := 0 }).Yan = 9 :=
  have h := C14_drag_truncation sinZero cosZero
    { (setupState : State ℚ) with
      Xan := 10, Yan := 10, touchActive := true, lastTouchX := 0, lastTouchY := 0 }
    ⟨1, -1⟩ rfl
  ⟨rfl, h.1.2.2.1 (by decide) (by decide), h.2.1.2.2.2 (by decide) (by decide)⟩

end Facts

end CubeDemo
